import Mathlib

set_option maxRecDepth 8000

/-!
# Verification of the event/booking validation pipeline

Shallow embedding of the repository's validation and normalization code
(`event.model.ts` and `booking.model.ts`) together with proofs checking the
natural-language specification against it.

Strings are modelled as Lean `String` (a list of characters); the JavaScript
string primitives used by the source (`trim`, `toLowerCase`, regexes) are
embedded as executable functions below, each with a comment pointing at the
construct it models.
-/

/-- The set of characters removed by JavaScript `String.prototype.trim` and
matched by the regex class `\s`: ECMA-262 WhiteSpace (TAB, VT, FF, SP, NBSP,
ZWNBSP and the Unicode Zs characters) plus LineTerminator (LF, CR, LS, PS). -/
def jsWs (c : Char) : Bool :=
  decide (c.toNat = 0x9) || decide (c.toNat = 0xA) || decide (c.toNat = 0xB) ||
  decide (c.toNat = 0xC) || decide (c.toNat = 0xD) || decide (c.toNat = 0x20) ||
  decide (c.toNat = 0xA0) || decide (c.toNat = 0x1680) ||
  (decide (0x2000 ≤ c.toNat) && decide (c.toNat ≤ 0x200A)) ||
  decide (c.toNat = 0x2028) || decide (c.toNat = 0x2029) ||
  decide (c.toNat = 0x202F) || decide (c.toNat = 0x205F) ||
  decide (c.toNat = 0x3000) || decide (c.toNat = 0xFEFF)

/-- `String.prototype.trim` on the underlying character list: drop `jsWs`
characters from the front, then from the back. -/
def jsTrimL (l : List Char) : List Char :=
  ((l.dropWhile jsWs).reverse.dropWhile jsWs).reverse

/-- `String.prototype.trim`. -/
def jsTrim (s : String) : String := ⟨jsTrimL s.data⟩

/-- `String.prototype.toLowerCase` on one character.  The source only ever
lower-cases text that is subsequently filtered down to ASCII (slug), matched
against an ASCII regex (email) or compared as a tag, so the ASCII fragment
A–Z ↦ a–z of Unicode lower-casing is the part of `toLowerCase` in play. -/
def jsCharLower (c : Char) : Char :=
  if 65 ≤ c.toNat ∧ c.toNat ≤ 90 then Char.ofNat (c.toNat + 32) else c

/-- `String.prototype.toLowerCase`. -/
def jsToLower (s : String) : String := ⟨s.data.map jsCharLower⟩

/-- The character class kept by the slug regex `[^a-z0-9\s-]` replacement:
lower-case ASCII letters, ASCII digits, whitespace (`\s`) and the hyphen. -/
def slugKeep (c : Char) : Bool :=
  (decide ('a' ≤ c) && decide (c ≤ 'z')) ||
  (decide ('0' ≤ c) && decide (c ≤ '9')) ||
  jsWs c || decide (c = '-')

/-- Replacement of every maximal run of `p`-characters by the single
character `rep`, as performed by `.replace(/\s+/g, '-')` (with `p := jsWs`)
and `.replace(/[-]+/g, '-')` (with `p := (· = '-')`, where replacing a run of
hyphens by `'-'` keeps one hyphen of the run).  Structural formulation: a
character whose successor continues the run is dropped, the last character
of a run is replaced by `rep`. -/
def collapseRuns (p : Char → Bool) (rep : Char) : List Char → List Char
  | [] => []
  | [c] => [if p c then rep else c]
  | a :: b :: rest =>
    if p a && p b then collapseRuns p rep (b :: rest)
    else (if p a then rep else a) :: collapseRuns p rep (b :: rest)

/-- `slugifyTitle` from `event.model.ts`, on character lists:
`title.toLowerCase().trim().replace(/[^a-z0-9\s-]/g, '').replace(/\s+/g, '-').replace(/[-]+/g, '-')`. -/
def slugifyTitleL (l : List Char) : List Char :=
  collapseRuns (fun c => decide (c = '-')) '-'
    (collapseRuns jsWs '-' ((jsTrimL (l.map jsCharLower)).filter slugKeep))

/-- `slugifyTitle` from `event.model.ts` (the Slug Generator). -/
def slugifyTitle (title : String) : String := ⟨slugifyTitleL title.data⟩

/-! ## Error taxonomy (spec section 7) -/

/-- The spec's error kinds for the throw sites of the two pre-save hooks.
Each constructor carries the offending field. -/
inductive VErr where
  | missingField : String → VErr
  | emptyListItem : String → VErr
  | invalidFormat : String → VErr
  | danglingReference : VErr
deriving DecidableEq

/-! ## Temporal Normalizer: `normalizeTime` -/

/-- ASCII digit, the regex class `\d`. -/
def digitC (c : Char) : Bool := decide ('0' ≤ c) && decide (c ≤ '9')

/-- Numeric value of an ASCII digit character. -/
def dval (c : Char) : Nat := c.toNat - 48

/-- Numeric value of a two-digit group. -/
def d2 (a b : Char) : Nat := 10 * dval a + dval b

/-- The hour group `([01]\d|2[0-3])` of the time regex. -/
def hourOk (a b : Char) : Bool :=
  ((decide (a = '0') || decide (a = '1')) && digitC b) ||
  (decide (a = '2') && decide ('0' ≤ b) && decide (b ≤ '3'))

/-- The minute/second group `[0-5]\d` of the time regex. -/
def minOk (a b : Char) : Bool := decide ('0' ≤ a) && decide (a ≤ '5') && digitC b

/-- `normalizeTime` from `event.model.ts`: trim, match the anchored regex
`([01]\d|2[0-3]):([0-5]\d)(?::([0-5]\d))?` (which matches exactly the
five-character strings `HH:MM` and the eight-character strings `HH:MM:SS`),
and return the hour and minute groups joined by `':'`; any other input
throws, modelled as the `InvalidFormat` error of the spec. -/
def normalizeTime (time : String) : Except VErr String :=
  match jsTrimL time.data with
  | [a, b, x, c, d] =>
    if x = ':' ∧ hourOk a b ∧ minOk c d then .ok ⟨[a, b, ':', c, d]⟩
    else .error (.invalidFormat "time")
  | [a, b, x, c, d, y, e, f] =>
    if x = ':' ∧ y = ':' ∧ hourOk a b ∧ minOk c d ∧ minOk e f then .ok ⟨[a, b, ':', c, d]⟩
    else .error (.invalidFormat "time")
  | _ => .error (.invalidFormat "time")

/-- Acceptance predicate written from the spec's words: after stripping
whitespace the input is `HH:MM` or `HH:MM:SS` where all groups are decimal
digit pairs, the hours read as a number are at most 23 and the minutes and
seconds at most 59. -/
def specTimeAccept (s : String) : Bool :=
  match jsTrimL s.data with
  | [a, b, x, c, d] =>
    decide (x = ':') && digitC a && digitC b && digitC c && digitC d &&
    decide (d2 a b ≤ 23) && decide (d2 c d ≤ 59)
  | [a, b, x, c, d, y, e, f] =>
    decide (x = ':') && decide (y = ':') &&
    digitC a && digitC b && digitC c && digitC d && digitC e && digitC f &&
    decide (d2 a b ≤ 23) && decide (d2 c d ≤ 59) && decide (d2 e f ≤ 59)
  | _ => false

/-! ## Booking email check -/

/-- `isValidEmail` from `booking.model.ts`: trim, then test the anchored
regex `[^\s@]+@[^\s@]+\.[^\s@]+`.  A match is a decomposition
`local ++ "@" ++ mid ++ "." ++ tail` with the three parts non-empty and free
of whitespace and `'@'`; scanning for the single `'@'` and for a `'.'` that
is neither the first nor the last character after it decides exactly that. -/
def isValidEmail (email : String) : Bool :=
  let t := jsTrimL email.data
  let first := t.takeWhile (fun c => decide (c ≠ '@'))
  let rest := t.dropWhile (fun c => decide (c ≠ '@'))
  match rest with
  | '@' :: dom =>
    decide (first ≠ []) &&
    t.all (fun c => !jsWs c) &&
    dom.all (fun c => decide (c ≠ '@')) &&
    (dom.dropLast.drop 1).contains '.'
  | _ => false

/-! ## Temporal Normalizer: `normalizeDate`

`normalizeDate` calls `new Date(dateStr)` and, unless the result is NaN,
renders `getUTCFullYear()`, `getUTCMonth() + 1` and `getUTCDate()` as
`` `${year}-${month...}-${day...}` `` with `padStart(2, '0')` applied to the
month and the day (and not to the year).

The host parser is embedded below as `jsDateParse`, following the ECMA-262
Date Time String Format, the only format whose acceptance the language
standard defines: `YYYY[-MM[-DD]]` optionally followed by
`THH:mm[:ss[.sss]]` and a `Z` or `±hh:mm` offset, with in-range fields and
day validity for the month (as checked by the major engines).  Forms whose
value is implementation- or time-zone-dependent (engine-specific fallback
formats, and date-times lacking an offset, which are interpreted in the
host's local zone) are outside the model and map to `none`. -/

/-- Gregorian leap year, as in ECMA-262 `DaysInYear`. -/
def isLeap (y : Int) : Bool := decide ((y % 4 = 0 ∧ y % 100 ≠ 0) ∨ y % 400 = 0)

/-- Leap rule for a year offset `yoe` (0–399) inside a 400-year era; eras
start at multiples of 400, so this agrees with `isLeap` of the full year. -/
def isLeapYoe (y : Nat) : Bool := decide ((y % 4 = 0 ∧ y % 100 ≠ 0) ∨ y % 400 = 0)

/-- Month lengths January–December. -/
def monthLens (leap : Bool) : List Nat :=
  [31, if leap then 29 else 28, 31, 30, 31, 30, 31, 31, 30, 31, 30, 31]

/-- Days in month `m` (1-based). -/
def daysInMonth (leap : Bool) (m : Nat) : Nat := (monthLens leap).getD (m - 1) 0

/-- Days from the start of the year to the start of month `m` (1-based). -/
def monthStart (lens : List Nat) (m : Nat) : Nat := (lens.take (m - 1)).sum

/-- Length in days of year-of-era `y`. -/
def yoeLen (y : Nat) : Nat := if isLeapYoe y then 366 else 365

/-- Days from the start of an era to the start of year-of-era `y`. -/
def yearStart : Nat → Nat
  | 0 => 0
  | y + 1 => yearStart y + yoeLen y

/-- Locate a day inside an era: from year-of-era `y` with `r` days left,
step over whole years; returns the year-of-era and the day-of-year. -/
def yearSearch : Nat → Nat → Nat → Nat × Nat
  | 0, y, r => (y, r)
  | f + 1, y, r => if r < yoeLen y then (y, r) else yearSearch f (y + 1) (r - yoeLen y)

/-- Locate a day inside a year: step over whole months; returns the
(1-based) month and day. -/
def monthSearch : List Nat → Nat → Nat → Nat × Nat
  | [], m, r => (m, r + 1)
  | len :: lens, m, r => if r < len then (m, r + 1) else monthSearch lens (m + 1) (r - len)

/-- UTC calendar date (year, month, day) of a day number counted from the
Unix epoch 1970-01-01 — the combination `getUTCFullYear` / `getUTCMonth` /
`getUTCDate` applied to `Day(t)`.  Day 0 of era 0 is 0000-01-01, which is
719528 days before the epoch. -/
def civilFromDays (z : Int) : Int × Nat × Nat :=
  let k := z + 719528
  let era := k / 146097
  let doe := (k % 146097).toNat
  let yd := yearSearch 400 0 doe
  let md := monthSearch (monthLens (isLeapYoe yd.1)) 1 yd.2
  (400 * era + yd.1, md.1, md.2)

/-- Day number (from the Unix epoch) of a calendar date, as in ECMA-262
`MakeDay`. -/
def daysFromCivil (y : Int) (m d : Nat) : Int :=
  let era := y / 400
  let yoe := (y % 400).toNat
  era * 146097 +
    (yearStart yoe + monthStart (monthLens (isLeapYoe yoe)) m + (d - 1) : Nat) - 719528

def msPerDay : Int := 86400000

/-- UTC calendar date of an epoch millisecond count (`Day(t)` uses floor
division, which for the positive divisor is Lean's `Int` division). -/
def utcCivil (ms : Int) : Int × Nat × Nat := civilFromDays (ms / msPerDay)

/-- Decimal digit character. -/
def digitChar (n : Nat) : Char := Char.ofNat (48 + n % 10)

/-- Decimal rendering of a natural number (fuelled so that it computes by
kernel reduction). -/
def natDecAux : Nat → Nat → List Char
  | 0, _ => []
  | f + 1, n => if n < 10 then [digitChar n] else natDecAux f (n / 10) ++ [digitChar (n % 10)]

/-- Decimal rendering of a natural number, as JavaScript `String(n)`;
written out digit by digit for up to five digits (the pipeline renders
years between -1 and 10000 and two-digit month/day fields), with the
fuelled computation as the tail case beyond that. -/
def natDec (n : Nat) : List Char :=
  if n < 10 then [digitChar n]
  else if n < 100 then [digitChar (n / 10), digitChar (n % 10)]
  else if n < 1000 then [digitChar (n / 100), digitChar (n / 10 % 10), digitChar (n % 10)]
  else if n < 10000 then
    [digitChar (n / 1000), digitChar (n / 100 % 10), digitChar (n / 10 % 10), digitChar (n % 10)]
  else if n < 100000 then
    [digitChar (n / 10000), digitChar (n / 1000 % 10), digitChar (n / 100 % 10),
      digitChar (n / 10 % 10), digitChar (n % 10)]
  else natDecAux (n + 1) n

/-- Decimal rendering of an integer, as JavaScript number-to-string for the
integral values produced by `getUTCFullYear` — in particular without any
zero padding. -/
def intDec (y : Int) : List Char :=
  if y < 0 then '-' :: natDec y.natAbs else natDec y.toNat

/-- `String(n).padStart(2, '0')`. -/
def pad2 (n : Nat) : List Char := if n < 10 then '0' :: natDec n else natDec n

/-- The template `` `${year}-${month}-${day}` `` of `normalizeDate`, with
month and day zero-padded to two characters. -/
def renderDate (y : Int) (m d : Nat) : String :=
  ⟨intDec y ++ '-' :: pad2 m ++ '-' :: pad2 d⟩

/-- Four decimal digits. -/
def digits4 (a b c d : Char) : Bool := digitC a && digitC b && digitC c && digitC d

/-- Numeric value of a four-digit group. -/
def d4 (a b c d : Char) : Nat := 1000 * dval a + 100 * dval b + 10 * dval c + dval d

/-- The date part `YYYY[-MM[-DD]]` of the ECMA-262 date-time string format:
month defaults to 01 and day to 01; month must be 01–12 and day valid for
the month. -/
def parseDatePart : List Char → Option (Int × Nat × Nat)
  | [a, b, c, d] => if digits4 a b c d then some (d4 a b c d, 1, 1) else none
  | [a, b, c, d, h₁, e, f] =>
    if h₁ = '-' ∧ digits4 a b c d = true ∧ digitC e = true ∧ digitC f = true ∧
        1 ≤ d2 e f ∧ d2 e f ≤ 12 then
      some (d4 a b c d, d2 e f, 1)
    else none
  | [a, b, c, d, h₁, e, f, h₂, g, h] =>
    if h₁ = '-' ∧ h₂ = '-' ∧ digits4 a b c d = true ∧ digitC e = true ∧ digitC f = true ∧
        1 ≤ d2 e f ∧ d2 e f ≤ 12 ∧ digitC g = true ∧ digitC h = true ∧
        1 ≤ d2 g h ∧ d2 g h ≤ daysInMonth (isLeap (d4 a b c d)) (d2 e f) then
      some (d4 a b c d, d2 e f, d2 g h)
    else none
  | _ => none

/-- The time-zone offset suffix: `Z`, or `±hh:mm`, in minutes. -/
def parseOffset : List Char → Option Int
  | ['Z'] => some 0
  | [sgn, a, b, x, c, d] =>
    if x = ':' ∧ digitC a = true ∧ digitC b = true ∧ digitC c = true ∧ digitC d = true ∧
        d2 a b ≤ 23 ∧ d2 c d ≤ 59 then
      if sgn = '+' then some (d2 a b * 60 + d2 c d)
      else if sgn = '-' then some (-((d2 a b * 60 + d2 c d : Nat) : Int))
      else none
    else none
  | _ => none

/-- The time part `HH:mm[:ss[.sss]]` followed by an offset, giving the
millisecond of day and the offset in minutes.  A time without an offset is
interpreted by the host in its local zone and is outside the model. -/
def parseTimePart (l : List Char) : Option (Int × Int) :=
  match l with
  | a :: b :: x :: c :: d :: rest =>
    if x = ':' ∧ digitC a = true ∧ digitC b = true ∧ digitC c = true ∧ digitC d = true ∧
        d2 a b ≤ 23 ∧ d2 c d ≤ 59 then
      let hm : Int := ((d2 a b * 3600000 + d2 c d * 60000 : Nat) : Int)
      match rest with
      | [] => none
      | ':' :: e :: f :: rest₂ =>
        if digitC e = true ∧ digitC f = true ∧ d2 e f ≤ 59 then
          let hms : Int := hm + ((d2 e f * 1000 : Nat) : Int)
          match rest₂ with
          | '.' :: g :: h :: i :: rest₃ =>
            if digitC g = true ∧ digitC h = true ∧ digitC i = true then
              (parseOffset rest₃).map (fun off => (hms + ((d2 g h * 10 + dval i : Nat) : Int), off))
            else none
          | tz => (parseOffset tz).map (fun off => (hms, off))
        else none
      | tz => (parseOffset tz).map (fun off => (hm, off))
    else none
  | _ => none

/-- The host date parser `new Date(string)`, modelled on the ECMA-262 Date
Time String Format (see the section comment): epoch milliseconds, or `none`
where parsing fails (or falls outside the defined format). -/
def jsDateParse (s : String) : Option Int :=
  let datePart := s.data.takeWhile (fun c => decide (c ≠ 'T'))
  let rest := s.data.dropWhile (fun c => decide (c ≠ 'T'))
  match parseDatePart datePart with
  | none => none
  | some (y, m, d) =>
    match rest with
    | [] => some (daysFromCivil y m d * msPerDay)
    | _ :: timePart =>
      match parseTimePart timePart with
      | none => none
      | some (msDay, offMin) => some (daysFromCivil y m d * msPerDay + msDay - offMin * 60000)

/-- `normalizeDate` from `event.model.ts`: parse with the host parser, throw
(`InvalidFormat`) on NaN, otherwise render the UTC calendar date. -/
def normalizeDate (dateStr : String) : Except VErr String :=
  match jsDateParse dateStr with
  | none => .error (.invalidFormat "date")
  | some ms => .ok (renderDate (utcCivil ms).1 (utcCivil ms).2.1 (utcCivil ms).2.2)

/-! ## Event Validator/Normalizer (the `pre('save')` hook of `event.model.ts`) -/

/-- The Event document as seen by the pre-save hook: its persisted string
and list fields plus Mongoose's dirty-tracking state `isNew` and
`isModified('title')`. -/
structure EventInput where
  title : String
  slug : String
  description : String
  overview : String
  image : String
  venue : String
  location : String
  date : String
  time : String
  mode : String
  audience : String
  agenda : List String
  organizer : String
  tags : List String
  isNew : Bool
  titleModified : Bool
deriving DecidableEq

/-- `this.agenda.map(item => { const trimmed = item.trim(); if (!trimmed)
throw ...; return trimmed; })`: trim every element left to right, throwing
`EmptyListItem` at the first element that is empty after trimming. -/
def trimItems (fld : String) : List String → Except VErr (List String)
  | [] => .ok []
  | x :: xs =>
    if jsTrim x = "" then .error (.emptyListItem fld)
    else
      match trimItems fld xs with
      | .error e => .error e
      | .ok r => .ok (jsTrim x :: r)

/-- The same for tags, additionally lower-casing each retained element:
`return trimmed.toLowerCase()`. -/
def trimLowerItems (fld : String) : List String → Except VErr (List String)
  | [] => .ok []
  | x :: xs =>
    if jsTrim x = "" then .error (.emptyListItem fld)
    else
      match trimLowerItems fld xs with
      | .error e => .error e
      | .ok r => .ok (jsToLower (jsTrim x) :: r)

/-- The Event pre-save hook, step for step in source order: the nine
trim-presence checks (`MissingField`), the agenda and tags non-emptiness
checks (`MissingField`), the agenda and tags element maps (`EmptyListItem`),
date and time normalization (`InvalidFormat`), and slug (re)computation when
the record is new or the title was modified.  Returns the document handed to
the store, or the error of the earliest failing step. -/
def eventPreSave (e : EventInput) : Except VErr EventInput :=
  if jsTrim e.title = "" then .error (.missingField "title")
  else if jsTrim e.description = "" then .error (.missingField "description")
  else if jsTrim e.overview = "" then .error (.missingField "overview")
  else if jsTrim e.image = "" then .error (.missingField "image")
  else if jsTrim e.venue = "" then .error (.missingField "venue")
  else if jsTrim e.location = "" then .error (.missingField "location")
  else if jsTrim e.mode = "" then .error (.missingField "mode")
  else if jsTrim e.audience = "" then .error (.missingField "audience")
  else if jsTrim e.organizer = "" then .error (.missingField "organizer")
  else if e.agenda = [] then .error (.missingField "agenda")
  else if e.tags = [] then .error (.missingField "tags")
  else
    match trimItems "agenda" e.agenda with
    | .error err => .error err
    | .ok agenda' =>
      match trimLowerItems "tags" e.tags with
      | .error err => .error err
      | .ok tags' =>
        match normalizeDate e.date with
        | .error err => .error err
        | .ok date' =>
          match normalizeTime e.time with
          | .error err => .error err
          | .ok time' =>
            .ok { e with
                  agenda := agenda', tags := tags', date := date', time := time',
                  slug := if e.isNew || e.titleModified then slugifyTitle e.title else e.slug }

/-- A fully valid fresh Event, used to exercise the accepting path. -/
def okEvent : EventInput :=
  { title := "Tech Meetup 2024", slug := "", description := "desc", overview := "ov"
    image := "img.png", venue := "Hall A", location := "Berlin", date := "2024-03-02"
    time := "09:05", mode := "offline", audience := "devs", agenda := [" Keynote "]
    organizer := "ACME", tags := [" AI ", "Rust"], isNew := true, titleModified := false }

/-! ## Booking Validator (the `pre('save')` hook of `booking.model.ts`) -/

/-- The Booking document as seen by its pre-save hook: the persisted fields
plus Mongoose's dirty-tracking state `isNew` and `isModified('eventId')`.
Object ids are modelled as natural numbers. -/
structure BookingInput where
  eventId : Nat
  email : String
  isNew : Bool
  eventIdModified : Bool
deriving DecidableEq

/-- The Booking pre-save hook, instrumented: the Record Store is modelled as
the list of existing Event ids, and the second component records whether the
`Event.exists({ _id: this.eventId })` lookup was performed.  Steps in source
order: email presence (`MissingField`), email format (`InvalidFormat`),
then — only when the record is new or `eventId` was modified — the existence
lookup, whose failure is `DanglingReference`. -/
def bookingPreSaveT (store : List Nat) (b : BookingInput) :
    Except VErr BookingInput × Bool :=
  if jsTrim b.email = "" then (.error (.missingField "email"), false)
  else if isValidEmail b.email = false then (.error (.invalidFormat "email"), false)
  else if b.isNew || b.eventIdModified then
    (if store.contains b.eventId then .ok b else .error .danglingReference, true)
  else (.ok b, false)

/-- The Booking pre-save hook: result only. -/
def bookingPreSave (store : List Nat) (b : BookingInput) : Except VErr BookingInput :=
  (bookingPreSaveT store b).1

/-- Run collapsing as the spec phrases it (\"collapse any run of … into a
single …\"): replace each maximal run of `p`-characters, identified from its
first character, by `rep`. -/
def specCollapse (p : Char → Bool) (rep : Char) : List Char → List Char
  | [] => []
  | c :: rest =>
    if p c then rep :: specCollapse p rep (rest.dropWhile p)
    else c :: specCollapse p rep rest
termination_by l => l.length
decreasing_by
  · simp only [List.length_cons]
    exact Nat.lt_succ_of_le (List.Sublist.length_le (List.dropWhile_sublist p))
  · simp

/-- Grouped presence hypotheses of the nine scalar checks. -/
def scalarsOk (e : EventInput) : Prop :=
  jsTrim e.title ≠ "" ∧ jsTrim e.description ≠ "" ∧ jsTrim e.overview ≠ "" ∧
  jsTrim e.image ≠ "" ∧ jsTrim e.venue ≠ "" ∧ jsTrim e.location ≠ "" ∧
  jsTrim e.mode ≠ "" ∧ jsTrim e.audience ≠ "" ∧ jsTrim e.organizer ≠ ""

/-- The Slug Generator as the spec words it: lower-case, trim, remove every
character that is not a lower-case letter, digit, whitespace or hyphen,
collapse each whitespace run into one hyphen, collapse each hyphen run into
one hyphen. -/
def specSlugify (title : String) : String :=
  ⟨specCollapse (fun c => decide (c = '-')) '-'
    (specCollapse jsWs '-' ((jsTrimL (title.data.map jsCharLower)).filter slugKeep))⟩

/-! ## Character facts -/

theorem charLe_iff (a b : Char) : a ≤ b ↔ a.toNat ≤ b.toNat := Iff.rfl

theorem charEq_iff (a b : Char) : a = b ↔ a.toNat = b.toNat :=
  ⟨fun h => by rw [h], fun h => Char.ext (UInt32.ext h)⟩

theorem charOfNat_toNat {n : Nat} (h : n < 55296) : (Char.ofNat n).toNat = n := by
  unfold Char.ofNat
  rw [dif_pos (Or.inl h)]
  rfl

/-- A lower-case ASCII letter, digit or hyphen is not whitespace. -/
theorem not_jsWs_of_visible {c : Char} (h : c.toNat = 45 ∨ (48 ≤ c.toNat ∧ c.toNat ≤ 57) ∨
    (97 ≤ c.toNat ∧ c.toNat ≤ 122)) : jsWs c = false := by
  simp only [jsWs, Bool.or_eq_false_iff, Bool.and_eq_false_iff, decide_eq_false_iff_not]
  omega

/-- Lower-casing is the identity off the A–Z range. -/
theorem jsCharLower_eq_self {c : Char} (h : c.toNat < 65 ∨ 90 < c.toNat) :
    jsCharLower c = c := by
  unfold jsCharLower
  rw [if_neg (by omega)]

/-- Lower-casing an A–Z character lands in a–z. -/
theorem jsCharLower_toNat_of_upper {c : Char} (h₁ : 65 ≤ c.toNat) (h₂ : c.toNat ≤ 90) :
    (jsCharLower c).toNat = c.toNat + 32 := by
  unfold jsCharLower
  rw [if_pos ⟨h₁, h₂⟩]
  exact charOfNat_toNat (by omega)

/-- Lower-casing is idempotent. -/
theorem jsCharLower_idem (c : Char) : jsCharLower (jsCharLower c) = jsCharLower c := by
  by_cases h : 65 ≤ c.toNat ∧ c.toNat ≤ 90
  · have h2 := jsCharLower_toNat_of_upper h.1 h.2
    apply jsCharLower_eq_self
    omega
  · have hid : jsCharLower c = c := jsCharLower_eq_self (by omega)
    rw [hid, hid]

/-! ## Facts about `collapseRuns` (the two run-replacing regexes) -/

theorem collapseRuns_head (p : Char → Bool) (rep : Char) (c : Char) (l : List Char) :
    (collapseRuns p rep (c :: l)).head? = some (if p c = true then rep else c) := by
  induction l generalizing c with
  | nil => simp [collapseRuns]
  | cons b rest ih =>
    rw [collapseRuns]
    by_cases h : (p c && p b) = true
    · rw [if_pos h, ih b]
      simp only [Bool.and_eq_true] at h
      simp [h.1, h.2]
    · rw [if_neg h]
      rfl

/-- Every character emitted by `collapseRuns` is the replacement or a
non-run character of the input. -/
theorem collapseRuns_mem (p : Char → Bool) (rep : Char) (l : List Char) :
    ∀ c ∈ collapseRuns p rep l, c = rep ∨ (c ∈ l ∧ p c = false) := by
  induction l with
  | nil => simp [collapseRuns]
  | cons a tail ih =>
    cases tail with
    | nil =>
      intro c hc
      simp only [collapseRuns, List.mem_singleton] at hc
      by_cases h : p a = true
      · left; simpa [h] using hc
      · right
        rw [if_neg h] at hc
        simp [hc, Bool.eq_false_iff.mpr h]
    | cons b rest =>
      intro c hc
      rw [collapseRuns] at hc
      by_cases h : (p a && p b) = true
      · rw [if_pos h] at hc
        rcases ih c hc with h' | h'
        · exact Or.inl h'
        · exact Or.inr ⟨List.mem_cons_of_mem a h'.1, h'.2⟩
      · rw [if_neg h] at hc
        rcases List.mem_cons.mp hc with h' | h'
        · by_cases hpa : p a = true
          · left; simpa [hpa] using h'
          · right
            rw [if_neg hpa] at h'
            simp [h', Bool.eq_false_iff.mpr hpa]
        · rcases ih c h' with h'' | h''
          · exact Or.inl h''
          · exact Or.inr ⟨List.mem_cons_of_mem a h''.1, h''.2⟩

/-- After collapsing, no two adjacent characters both satisfy `p`
(for the hyphen regex: no `--` remains). -/
theorem collapseRuns_chain (p : Char → Bool) (rep : Char) (l : List Char) :
    (collapseRuns p rep l).Chain' (fun x y => ¬(p x = true ∧ p y = true)) := by
  induction l with
  | nil => simp [collapseRuns]
  | cons a tail ih =>
    cases tail with
    | nil => simp [collapseRuns]
    | cons b rest =>
      rw [collapseRuns]
      by_cases h : (p a && p b) = true
      · rw [if_pos h]; exact ih
      · rw [if_neg h]
        refine List.chain'_cons'.mpr ⟨?_, ih⟩
        intro y hy
        rw [collapseRuns_head] at hy
        have hy' : (if p b = true then rep else b) = y := by simpa using hy
        subst hy'
        by_cases hpa : p a = true
        · have hpb : p b = false := by
            cases hb : p b
            · rfl
            · exact absurd (by rw [Bool.and_eq_true]; exact ⟨hpa, hb⟩) h
          rw [if_pos hpa, if_neg (by rw [hpb]; exact Bool.false_ne_true)]
          rintro ⟨-, hc⟩
          rw [hpb] at hc
          exact Bool.false_ne_true hc
        · rw [if_neg hpa]
          rintro ⟨hc, -⟩
          exact hpa hc

/-! ## Facts about `jsTrim` -/

theorem dropWhile_head_false (p : Char → Bool) :
    ∀ (l : List Char) (a : Char), (l.dropWhile p).head? = some a → p a = false := by
  intro l
  induction l with
  | nil => intro a h; simp [List.dropWhile] at h
  | cons x xs ih =>
    intro a h
    rw [List.dropWhile_cons] at h
    by_cases hx : p x = true
    · rw [if_pos hx] at h
      exact ih a h
    · rw [if_neg hx] at h
      injection h with h
      rw [← h]
      exact Bool.eq_false_iff.mpr hx

theorem dropWhile_getLast (p : Char → Bool) :
    ∀ l : List Char, l.dropWhile p ≠ [] → (l.dropWhile p).getLast? = l.getLast? := by
  intro l
  induction l with
  | nil => intro h; simp [List.dropWhile] at h
  | cons x xs ih =>
    intro h
    rw [List.dropWhile_cons] at h ⊢
    by_cases hx : p x = true
    · rw [if_pos hx] at h ⊢
      rw [ih h]
      cases xs with
      | nil => exact absurd rfl h
      | cons y ys => rfl
    · rw [if_neg hx]

/-- `dropWhile` is the identity on a list with no `p`-character. -/
theorem dropWhile_eq_self_of_all (p : Char → Bool) (l : List Char)
    (h : ∀ c ∈ l, p c = false) : l.dropWhile p = l := by
  cases l with
  | nil => rfl
  | cons a xs =>
    rw [List.dropWhile_cons, if_neg (by simp [h a (List.mem_cons_self a xs)])]

/-- `dropWhile` is the identity when the head is not a `p`-character. -/
theorem dropWhile_eq_self_of_head (p : Char → Bool) (l : List Char)
    (h : ∀ a, l.head? = some a → p a = false) : l.dropWhile p = l := by
  cases l with
  | nil => rfl
  | cons a xs =>
    rw [List.dropWhile_cons, if_neg (by simp [h a rfl])]

/-- Trimming keeps only characters of the input. -/
theorem jsTrimL_mem (l : List Char) : ∀ c ∈ jsTrimL l, c ∈ l := by
  intro c hc
  unfold jsTrimL at hc
  rw [List.mem_reverse] at hc
  have h1 := (List.dropWhile_sublist jsWs (l := (l.dropWhile jsWs).reverse)).mem hc
  rw [List.mem_reverse] at h1
  exact (List.dropWhile_sublist jsWs (l := l)).mem h1

/-- A list without whitespace characters trims to itself. -/
theorem jsTrimL_eq_self {l : List Char} (h : ∀ c ∈ l, jsWs c = false) : jsTrimL l = l := by
  unfold jsTrimL
  rw [dropWhile_eq_self_of_all jsWs l h,
    dropWhile_eq_self_of_all jsWs l.reverse (fun c hc => h c (List.mem_reverse.mp hc)),
    List.reverse_reverse]

/-- The head of a trimmed list is not whitespace. -/
theorem jsTrimL_head (l : List Char) (a : Char) (h : (jsTrimL l).head? = some a) :
    jsWs a = false := by
  unfold jsTrimL at h
  have hne : (l.dropWhile jsWs).reverse.dropWhile jsWs ≠ [] := by
    intro hc
    rw [hc] at h
    simp at h
  rw [List.head?_reverse, dropWhile_getLast jsWs _ hne, List.getLast?_reverse] at h
  exact dropWhile_head_false jsWs _ a h

/-- The last character of a trimmed list is not whitespace. -/
theorem jsTrimL_getLast (l : List Char) (a : Char) (h : (jsTrimL l).getLast? = some a) :
    jsWs a = false := by
  unfold jsTrimL at h
  rw [List.getLast?_reverse] at h
  exact dropWhile_head_false jsWs _ a h

/-- Trimming is idempotent. -/
theorem jsTrimL_idem (l : List Char) : jsTrimL (jsTrimL l) = jsTrimL l := by
  conv_lhs => rw [jsTrimL]
  rw [dropWhile_eq_self_of_head jsWs (jsTrimL l) (jsTrimL_head l),
    dropWhile_eq_self_of_head jsWs (jsTrimL l).reverse
      (fun a ha => jsTrimL_getLast l a (by rw [List.head?_reverse] at ha; exact ha)),
    List.reverse_reverse]

/-- Collapsing is the identity on a list with no `p`-character. -/
theorem collapseRuns_eq_self_of_all (p : Char → Bool) (rep : Char) (l : List Char)
    (h : ∀ c ∈ l, p c = false) : collapseRuns p rep l = l := by
  induction l with
  | nil => rfl
  | cons a tail ih =>
    cases tail with
    | nil =>
      rw [collapseRuns, if_neg (by simp [h a (List.mem_cons_self a [])])]
    | cons b rest =>
      rw [collapseRuns,
        if_neg (by simp [h a (List.mem_cons_self a (b :: rest))]),
        if_neg (by simp [h a (List.mem_cons_self a (b :: rest))]),
        ih (fun c hc => h c (List.mem_cons_of_mem a hc))]

/-- Collapsing is the identity on a list with no two adjacent
`p`-characters, provided the only `p`-character is `rep` itself. -/
theorem collapseRuns_eq_self_of_chain (p : Char → Bool) (rep : Char)
    (hp : ∀ c, p c = true → c = rep) (l : List Char)
    (h : l.Chain' (fun x y => ¬(p x = true ∧ p y = true))) : collapseRuns p rep l = l := by
  induction l with
  | nil => rfl
  | cons a tail ih =>
    cases tail with
    | nil =>
      rw [collapseRuns]
      by_cases hpa : p a = true
      · rw [if_pos hpa, hp a hpa]
      · rw [if_neg hpa]
    | cons b rest =>
      rw [List.chain'_cons] at h
      have hnot : ¬((p a && p b) = true) := by
        rw [Bool.and_eq_true]
        exact h.1
      rw [collapseRuns, if_neg hnot, ih h.2]
      by_cases hpa : p a = true
      · rw [if_pos hpa, hp a hpa]
      · rw [if_neg hpa]

theorem specCollapse_nil (p : Char → Bool) (rep : Char) : specCollapse p rep [] = [] := by
  simp [specCollapse]

theorem specCollapse_cons (p : Char → Bool) (rep : Char) (c : Char) (rest : List Char) :
    specCollapse p rep (c :: rest) =
      if p c then rep :: specCollapse p rep (rest.dropWhile p)
      else c :: specCollapse p rep rest := by
  rw [specCollapse]

/-- The source's structural run replacement computes the spec's run
collapsing. -/
theorem collapseRuns_eq_specCollapse (p : Char → Bool) (rep : Char) :
    ∀ l : List Char, collapseRuns p rep l = specCollapse p rep l := by
  have main : ∀ n (l : List Char), l.length ≤ n →
      collapseRuns p rep l = specCollapse p rep l := by
    intro n
    induction n with
    | zero =>
      intro l hl
      rw [Nat.le_zero, List.length_eq_zero] at hl
      rw [hl, specCollapse_nil]
      rfl
    | succ n ih =>
      intro l hl
      cases l with
      | nil => rw [specCollapse_nil]; rfl
      | cons a tail =>
        cases tail with
        | nil =>
          rw [collapseRuns, specCollapse_cons]
          by_cases hpa : p a = true
          · rw [if_pos hpa, if_pos hpa, List.dropWhile_nil, specCollapse_nil]
          · rw [if_neg hpa, if_neg hpa, specCollapse_nil]
        | cons b rest =>
          simp only [List.length_cons, Nat.add_le_add_iff_right] at hl
          have hbr : (b :: rest).length ≤ n := by simpa using hl
          rw [collapseRuns, specCollapse_cons]
          by_cases hpa : p a = true
          · rw [if_pos hpa]
            by_cases hpb : p b = true
            · rw [if_pos (by rw [Bool.and_eq_true]; exact ⟨hpa, hpb⟩),
                ih (b :: rest) hbr, specCollapse_cons, if_pos hpb]
              have hdw : (b :: rest).dropWhile p = rest.dropWhile p := by
                rw [List.dropWhile_cons, if_pos hpb]
              rw [hdw, if_pos hpa]
            · rw [if_neg (by rw [Bool.and_eq_true]; intro hc; exact hpb hc.2), if_pos hpa]
              have hdw : (b :: rest).dropWhile p = b :: rest := by
                rw [List.dropWhile_cons, if_neg hpb]
              rw [hdw, ih (b :: rest) hbr]
          · rw [if_neg (by rw [Bool.and_eq_true]; intro hc; exact hpa hc.1), if_neg hpa,
              if_neg hpa, ih (b :: rest) hbr]
  intro l
  exact main l.length l le_rfl

/-! ## Slug invariants -/

/-- The character classes of slug output, in numeric form. -/
theorem visible_of_slug_char {c : Char}
    (h : c = '-' ∨ ('0' ≤ c ∧ c ≤ '9') ∨ ('a' ≤ c ∧ c ≤ 'z')) :
    c.toNat = 45 ∨ (48 ≤ c.toNat ∧ c.toNat ≤ 57) ∨ (97 ≤ c.toNat ∧ c.toNat ≤ 122) := by
  rcases h with h | h | h
  · left; rw [h]; rfl
  · exact Or.inr (Or.inl ⟨(charLe_iff '0' c).mp h.1, (charLe_iff c '9').mp h.2⟩)
  · exact Or.inr (Or.inr ⟨(charLe_iff 'a' c).mp h.1, (charLe_iff c 'z').mp h.2⟩)

/-- A kept, non-whitespace character is a hyphen, digit or letter. -/
theorem slugKeep_char {c : Char} (h1 : slugKeep c = true) (h2 : jsWs c = false) :
    c = '-' ∨ ('0' ≤ c ∧ c ≤ '9') ∨ ('a' ≤ c ∧ c ≤ 'z') := by
  simp only [slugKeep, Bool.or_eq_true, Bool.and_eq_true, decide_eq_true_eq] at h1
  rcases h1 with ((h | h) | h) | h
  · exact Or.inr (Or.inr h)
  · exact Or.inr (Or.inl h)
  · rw [h2] at h; exact absurd h Bool.false_ne_true
  · exact Or.inl h

/-- Every character of a slug is a hyphen, digit or lower-case letter. -/
theorem slugifyTitleL_chars (l : List Char) :
    ∀ c ∈ slugifyTitleL l, c = '-' ∨ ('0' ≤ c ∧ c ≤ '9') ∨ ('a' ≤ c ∧ c ≤ 'z') := by
  intro c hc
  unfold slugifyTitleL at hc
  rcases collapseRuns_mem _ _ _ c hc with h | ⟨h, _⟩
  all_goals first
    | exact Or.inl h
    | rcases collapseRuns_mem _ _ _ c h with h' | ⟨h', hws⟩
      · exact Or.inl h'
      · exact slugKeep_char (List.mem_filter.mp h').2 hws

/-- A slug contains no two consecutive hyphens. -/
theorem slugifyTitleL_chain (l : List Char) :
    (slugifyTitleL l).Chain' (fun x y => ¬(x = '-' ∧ y = '-')) := by
  unfold slugifyTitleL
  refine (collapseRuns_chain (fun c => decide (c = '-')) '-' _).imp ?_
  intro a b hab hc
  exact hab ⟨by rw [hc.1]; rfl, by rw [hc.2]; rfl⟩

/-- The Slug Generator is idempotent. -/
theorem slugifyTitleL_idem (l : List Char) :
    slugifyTitleL (slugifyTitleL l) = slugifyTitleL l := by
  have hchars := slugifyTitleL_chars l
  have hmap : (slugifyTitleL l).map jsCharLower = slugifyTitleL l := by
    refine (List.map_congr_left ?_).trans (List.map_id _)
    intro c hc
    show jsCharLower c = c
    apply jsCharLower_eq_self
    have := visible_of_slug_char (hchars c hc)
    omega
  have hnws : ∀ c ∈ slugifyTitleL l, jsWs c = false := fun c hc =>
    not_jsWs_of_visible (visible_of_slug_char (hchars c hc))
  have htrim : jsTrimL (slugifyTitleL l) = slugifyTitleL l := jsTrimL_eq_self hnws
  have hfilter : (slugifyTitleL l).filter slugKeep = slugifyTitleL l := by
    apply List.filter_eq_self.mpr
    intro c hc
    simp only [slugKeep, Bool.or_eq_true, Bool.and_eq_true, decide_eq_true_eq]
    rcases hchars c hc with h | h | h
    · exact Or.inr h
    · exact Or.inl (Or.inl (Or.inr h))
    · exact Or.inl (Or.inl (Or.inl h))
  have hws : collapseRuns jsWs '-' (slugifyTitleL l) = slugifyTitleL l :=
    collapseRuns_eq_self_of_all jsWs '-' _ hnws
  have hdash : collapseRuns (fun c => decide (c = '-')) '-' (slugifyTitleL l) =
      slugifyTitleL l := by
    apply collapseRuns_eq_self_of_chain
    · intro c hc
      simpa using hc
    · exact (slugifyTitleL_chain l).imp (fun a b hab hc => hab (by simpa using hc))
  conv_lhs => rw [slugifyTitleL, hmap, htrim, hfilter, hws, hdash]

/-- The Slug Generator is idempotent (string form). -/
theorem slugifyTitle_idem (s : String) :
    slugifyTitle (slugifyTitle s) = slugifyTitle s := by
  unfold slugifyTitle
  rw [slugifyTitleL_idem]

/-! ## Time normalizer facts -/

theorem digitC_toNat {a : Char} (h : digitC a = true) : 48 ≤ a.toNat ∧ a.toNat ≤ 57 := by
  have h0 : ('0').toNat = 48 := rfl
  have h9 : ('9').toNat = 57 := rfl
  simp only [digitC, Bool.and_eq_true, decide_eq_true_eq, charLe_iff] at h
  omega

/-- The hour group of the regex accepts exactly the two-digit numbers 00–23. -/
theorem hourOk_iff (a b : Char) :
    hourOk a b = true ↔ (digitC a = true ∧ digitC b = true ∧ d2 a b ≤ 23) := by
  have h0 : ('0').toNat = 48 := rfl
  have h1 : ('1').toNat = 49 := rfl
  have h2 : ('2').toNat = 50 := rfl
  have h3 : ('3').toNat = 51 := rfl
  have h9 : ('9').toNat = 57 := rfl
  simp only [hourOk, digitC, d2, dval, Bool.or_eq_true, Bool.and_eq_true,
    decide_eq_true_eq, charEq_iff, charLe_iff]
  omega

/-- The minute/second group of the regex accepts exactly 00–59. -/
theorem minOk_iff (a b : Char) :
    minOk a b = true ↔ (digitC a = true ∧ digitC b = true ∧ d2 a b ≤ 59) := by
  have h0 : ('0').toNat = 48 := rfl
  have h5 : ('5').toNat = 53 := rfl
  have h9 : ('9').toNat = 57 := rfl
  simp only [minOk, digitC, d2, dval, Bool.or_eq_true, Bool.and_eq_true,
    decide_eq_true_eq, charEq_iff, charLe_iff]
  omega

/-- `normalizeTime` succeeds exactly when the spec's acceptance predicate
holds. -/
theorem normalizeTime_isOk_iff (s : String) :
    (normalizeTime s).isOk = true ↔ specTimeAccept s = true := by
  unfold normalizeTime specTimeAccept
  rcases h : jsTrimL s.data with
    _ | ⟨a, _ | ⟨b, _ | ⟨x, _ | ⟨c, _ | ⟨d, _ | ⟨y, _ | ⟨e, _ | ⟨f, _ | ⟨g, rest⟩⟩⟩⟩⟩⟩⟩⟩⟩
  case cons.cons.cons.cons.cons.nil =>
    show ((if x = ':' ∧ hourOk a b = true ∧ minOk c d = true
        then (Except.ok (String.mk [a, b, ':', c, d]) : Except VErr String)
        else .error (.invalidFormat "time")).isOk = true) ↔
      ((decide (x = ':') && digitC a && digitC b && digitC c && digitC d &&
        decide (d2 a b ≤ 23) && decide (d2 c d ≤ 59)) = true)
    by_cases hc : x = ':' ∧ hourOk a b = true ∧ minOk c d = true
    · rw [if_pos hc]
      obtain ⟨hx, hH, hM⟩ := hc
      obtain ⟨hda, hdb, h23⟩ := (hourOk_iff a b).mp hH
      obtain ⟨hdc, hdd, h59⟩ := (minOk_iff c d).mp hM
      simp [Except.isOk, Except.toBool, hx, hda, hdb, hdc, hdd, h23, h59]
    · rw [if_neg hc]
      constructor
      · intro hfalse; simp [Except.isOk, Except.toBool] at hfalse
      · intro hR
        simp only [Bool.and_eq_true, decide_eq_true_eq] at hR
        obtain ⟨⟨⟨⟨⟨⟨hx, hda⟩, hdb⟩, hdc⟩, hdd⟩, h23⟩, h59⟩ := hR
        exact absurd ⟨hx, (hourOk_iff a b).mpr ⟨hda, hdb, h23⟩,
          (minOk_iff c d).mpr ⟨hdc, hdd, h59⟩⟩ hc
  case cons.cons.cons.cons.cons.cons.cons.cons.nil =>
    show ((if x = ':' ∧ y = ':' ∧ hourOk a b = true ∧ minOk c d = true ∧ minOk e f = true
        then (Except.ok (String.mk [a, b, ':', c, d]) : Except VErr String)
        else .error (.invalidFormat "time")).isOk = true) ↔
      ((decide (x = ':') && decide (y = ':') && digitC a && digitC b && digitC c && digitC d &&
        digitC e && digitC f && decide (d2 a b ≤ 23) && decide (d2 c d ≤ 59) &&
        decide (d2 e f ≤ 59)) = true)
    by_cases hc : x = ':' ∧ y = ':' ∧ hourOk a b = true ∧ minOk c d = true ∧ minOk e f = true
    · rw [if_pos hc]
      obtain ⟨hx, hy, hH, hM, hS⟩ := hc
      obtain ⟨hda, hdb, h23⟩ := (hourOk_iff a b).mp hH
      obtain ⟨hdc, hdd, h59⟩ := (minOk_iff c d).mp hM
      obtain ⟨hde, hdf, h59'⟩ := (minOk_iff e f).mp hS
      simp [Except.isOk, Except.toBool, hx, hy, hda, hdb, hdc, hdd, hde, hdf, h23, h59, h59']
    · rw [if_neg hc]
      constructor
      · intro hfalse; simp [Except.isOk, Except.toBool] at hfalse
      · intro hR
        simp only [Bool.and_eq_true, decide_eq_true_eq] at hR
        obtain ⟨⟨⟨⟨⟨⟨⟨⟨⟨⟨hx, hy⟩, hda⟩, hdb⟩, hdc⟩, hdd⟩, hde⟩, hdf⟩, h23⟩, h59⟩, h59'⟩ := hR
        exact absurd ⟨hx, hy, (hourOk_iff a b).mpr ⟨hda, hdb, h23⟩,
          (minOk_iff c d).mpr ⟨hdc, hdd, h59⟩, (minOk_iff e f).mpr ⟨hde, hdf, h59'⟩⟩ hc
  all_goals simp [Except.isOk, Except.toBool]

/-- A successful `normalizeTime` returns exactly the `HH:MM` prefix of the
trimmed input, with in-range hour and minute groups. -/
theorem normalizeTime_ok_shape (s : String) (r : String) (h : normalizeTime s = .ok r) :
    ∃ a b c d, r = ⟨[a, b, ':', c, d]⟩ ∧ hourOk a b = true ∧ minOk c d = true ∧
      (jsTrimL s.data).take 5 = [a, b, ':', c, d] := by
  unfold normalizeTime at h
  rcases hl : jsTrimL s.data with
    _ | ⟨a, _ | ⟨b, _ | ⟨x, _ | ⟨c, _ | ⟨d, _ | ⟨y, _ | ⟨e, _ | ⟨f, _ | ⟨g, rest⟩⟩⟩⟩⟩⟩⟩⟩⟩ <;>
    rw [hl] at h
  case cons.cons.cons.cons.cons.nil =>
    replace h : (if x = ':' ∧ hourOk a b = true ∧ minOk c d = true
        then (Except.ok (String.mk [a, b, ':', c, d]) : Except VErr String)
        else .error (.invalidFormat "time")) = .ok r := h
    by_cases hc : x = ':' ∧ hourOk a b = true ∧ minOk c d = true
    · rw [if_pos hc] at h
      injection h with h
      exact ⟨a, b, c, d, h.symm, hc.2.1, hc.2.2, by rw [hc.1]; rfl⟩
    · rw [if_neg hc] at h
      exact Except.noConfusion h
  case cons.cons.cons.cons.cons.cons.cons.cons.nil =>
    replace h : (if x = ':' ∧ y = ':' ∧ hourOk a b = true ∧ minOk c d = true ∧ minOk e f = true
        then (Except.ok (String.mk [a, b, ':', c, d]) : Except VErr String)
        else .error (.invalidFormat "time")) = .ok r := h
    by_cases hc : x = ':' ∧ y = ':' ∧ hourOk a b = true ∧ minOk c d = true ∧ minOk e f = true
    · rw [if_pos hc] at h
      injection h with h
      exact ⟨a, b, c, d, h.symm, hc.2.2.1, hc.2.2.2.1, by rw [hc.1]; rfl⟩
    · rw [if_neg hc] at h
      exact Except.noConfusion h
  all_goals exact Except.noConfusion h

/-- A failing `normalizeTime` fails with the time `InvalidFormat` error. -/
theorem normalizeTime_error_shape (s : String) (h : ∀ r, normalizeTime s ≠ .ok r) :
    normalizeTime s = .error (.invalidFormat "time") := by
  rcases he : normalizeTime s with err | r
  · unfold normalizeTime at he
    rcases hl : jsTrimL s.data with
      _ | ⟨a, _ | ⟨b, _ | ⟨x, _ | ⟨c, _ | ⟨d, _ | ⟨y, _ | ⟨e, _ | ⟨f, _ | ⟨g, rest⟩⟩⟩⟩⟩⟩⟩⟩⟩ <;>
      rw [hl] at he
    case cons.cons.cons.cons.cons.nil =>
      replace he : (if x = ':' ∧ hourOk a b = true ∧ minOk c d = true
          then (Except.ok (String.mk [a, b, ':', c, d]) : Except VErr String)
          else .error (.invalidFormat "time")) = .error err := he
      by_cases hc : x = ':' ∧ hourOk a b = true ∧ minOk c d = true
      · rw [if_pos hc] at he
        exact Except.noConfusion he
      · rw [if_neg hc] at he
        injection he with he
        rw [he]
    case cons.cons.cons.cons.cons.cons.cons.cons.nil =>
      replace he : (if x = ':' ∧ y = ':' ∧ hourOk a b = true ∧ minOk c d = true ∧
            minOk e f = true
          then (Except.ok (String.mk [a, b, ':', c, d]) : Except VErr String)
          else .error (.invalidFormat "time")) = .error err := he
      by_cases hc : x = ':' ∧ y = ':' ∧ hourOk a b = true ∧ minOk c d = true ∧ minOk e f = true
      · rw [if_pos hc] at he
        exact Except.noConfusion he
      · rw [if_neg hc] at he
        injection he with he
        rw [he]
    all_goals injection he with he; rw [he]
  · exact absurd he (h r)

/-- `normalizeTime` is idempotent on its own output. -/
theorem normalizeTime_idem (s : String) (r : String) (h : normalizeTime s = .ok r) :
    normalizeTime r = .ok r := by
  obtain ⟨a, b, c, d, hr, hH, hM, -⟩ := normalizeTime_ok_shape s r h
  subst hr
  have hda := digitC_toNat ((hourOk_iff a b).mp hH).1
  have hdb := digitC_toNat ((hourOk_iff a b).mp hH).2.1
  have hdc := digitC_toNat ((minOk_iff c d).mp hM).1
  have hdd := digitC_toNat ((minOk_iff c d).mp hM).2.1
  have htrim : jsTrimL [a, b, ':', c, d] = [a, b, ':', c, d] := by
    apply jsTrimL_eq_self
    intro ch hch
    rcases List.mem_cons.mp hch with h' | h'
    · exact h' ▸ not_jsWs_of_visible (by omega)
    rcases List.mem_cons.mp h' with h' | h'
    · exact h' ▸ not_jsWs_of_visible (by omega)
    rcases List.mem_cons.mp h' with h' | h'
    · rw [h']; rfl
    rcases List.mem_cons.mp h' with h' | h'
    · exact h' ▸ not_jsWs_of_visible (by omega)
    rcases List.mem_cons.mp h' with h' | h'
    · exact h' ▸ not_jsWs_of_visible (by omega)
    · exact absurd h' (List.not_mem_nil ch)
  unfold normalizeTime
  rw [show (String.mk [a, b, ':', c, d]).data = [a, b, ':', c, d] from rfl, htrim]
  show (if ':' = ':' ∧ hourOk a b = true ∧ minOk c d = true
      then (Except.ok (String.mk [a, b, ':', c, d]) : Except VErr String)
      else .error (.invalidFormat "time")) = .ok ⟨[a, b, ':', c, d]⟩
  rw [if_pos ⟨rfl, hH, hM⟩]

/-! ## Calendar facts -/

theorem yearStart_succ (y : Nat) : yearStart (y + 1) = yearStart y + yoeLen y := rfl

theorem yearStart_400 : yearStart 400 = 146097 := by decide

theorem yearStart_mono {y₁ y₂ : Nat} (h : y₁ ≤ y₂) : yearStart y₁ ≤ yearStart y₂ := by
  induction y₂ with
  | zero => rw [Nat.le_zero.mp h]
  | succ n ih =>
    rcases Nat.lt_or_ge y₁ (n + 1) with h' | h'
    · exact le_trans (ih (Nat.lt_succ_iff.mp h')) (by rw [yearStart_succ]; omega)
    · rw [Nat.le_antisymm h h']

/-- `yearSearch` finds the year-of-era containing a day-of-era, and the
day's offset in it. -/
theorem yearSearch_char :
    ∀ (f y r y' r' : Nat), yearSearch f y r = (y', r') →
      r + yearStart y < yearStart (y + f) →
      yearStart y' ≤ r + yearStart y ∧ r + yearStart y = yearStart y' + r' ∧
        r' < yoeLen y' ∧ y ≤ y' ∧ y' < y + f := by
  intro f
  induction f with
  | zero =>
    intro y r y' r' heq hlt
    rw [Nat.add_zero] at hlt
    omega
  | succ f ih =>
    intro y r y' r' heq hlt
    rw [yearSearch] at heq
    by_cases hc : r < yoeLen y
    · rw [if_pos hc] at heq
      injection heq with h1 h2
      subst h1; subst h2
      omega
    · rw [if_neg hc] at heq
      have hys : yearStart (y + 1) = yearStart y + yoeLen y := yearStart_succ y
      have hpre : (r - yoeLen y) + yearStart (y + 1) < yearStart (y + 1 + f) := by
        have : y + 1 + f = y + (f + 1) := by omega
        rw [this, hys]
        omega
      obtain ⟨a1, a2, a3, a4, a5⟩ := ih (y + 1) (r - yoeLen y) y' r' heq hpre
      rw [hys] at a1 a2
      refine ⟨by omega, by omega, a3, by omega, by omega⟩

/-- `monthSearch` finds the month containing a day-of-year, and the
(1-based) day in it. -/
theorem monthSearch_char :
    ∀ (lens : List Nat) (m r m' d' : Nat), monthSearch lens m r = (m', d') →
      r < lens.sum →
      ∃ k, k < lens.length ∧ m' = m + k ∧ (lens.take k).sum ≤ r ∧
        r < (lens.take (k + 1)).sum ∧ d' = r - (lens.take k).sum + 1 := by
  intro lens
  induction lens with
  | nil =>
    intro m r m' d' heq hlt
    simp at hlt
  | cons L ls ih =>
    intro m r m' d' heq hlt
    rw [monthSearch] at heq
    by_cases hc : r < L
    · rw [if_pos hc] at heq
      injection heq with h1 h2
      subst h1; subst h2
      exact ⟨0, by simp, by omega, by simp, by simp [hc], by simp⟩
    · rw [if_neg hc] at heq
      rw [List.sum_cons] at hlt
      obtain ⟨k, b1, b2, b3, b4, b5⟩ := ih (m + 1) (r - L) m' d' heq (by omega)
      refine ⟨k + 1, by simp [b1], by omega, ?_, ?_, ?_⟩
      · rw [List.take_succ_cons, List.sum_cons]
        omega
      · rw [List.take_succ_cons, List.sum_cons]
        omega
      · rw [List.take_succ_cons, List.sum_cons]
        omega

theorem monthLens_sum (leap : Bool) : (monthLens leap).sum = if leap then 366 else 365 := by
  cases leap <;> decide

theorem monthLens_length (leap : Bool) : (monthLens leap).length = 12 := by
  cases leap <;> decide

/-- Leap status of a year depends only on its offset inside a 400-year
era. -/
theorem isLeap_eq (era : Int) (yoe : Nat) : isLeap (400 * era + yoe) = isLeapYoe yoe := by
  unfold isLeap isLeapYoe
  have h4 : (400 * era + yoe) % 4 = (yoe : Int) % 4 := by omega
  have h100 : (400 * era + yoe) % 100 = (yoe : Int) % 100 := by omega
  have h400 : (400 * era + yoe) % 400 = (yoe : Int) % 400 := by omega
  rw [h4, h100, h400]
  apply decide_eq_decide.mpr
  omega

/-- `civilFromDays` produces a valid calendar date, and `daysFromCivil`
takes it back to the day number. -/
theorem civilFromDays_spec (z : Int) (y : Int) (m d : Nat)
    (heq : civilFromDays z = (y, m, d)) :
    1 ≤ m ∧ m ≤ 12 ∧ 1 ≤ d ∧ d ≤ daysInMonth (isLeap y) m ∧ daysFromCivil y m d = z := by
  have hk := Int.ediv_add_emod (z + 719528) 146097
  have hmodlt : (z + 719528) % 146097 < 146097 := Int.emod_lt_of_pos _ (by norm_num)
  have hmodge : 0 ≤ (z + 719528) % 146097 := Int.emod_nonneg _ (by norm_num)
  have hdoeInt : (((z + 719528) % 146097).toNat : Int) = (z + 719528) % 146097 :=
    Int.toNat_of_nonneg hmodge
  rcases hys : yearSearch 400 0 ((z + 719528) % 146097).toNat with ⟨yoe, doy⟩
  obtain ⟨a1, a2, a3, a4, a5⟩ := yearSearch_char 400 0 _ yoe doy hys
    (by show _ + yearStart 0 < yearStart (0 + 400); rw [show yearStart 0 = 0 from rfl,
      show (0 + 400 : Nat) = 400 from rfl, yearStart_400]; omega)
  rcases hms : monthSearch (monthLens (isLeapYoe yoe)) 1 doy with ⟨m', d'⟩
  have hsum : doy < (monthLens (isLeapYoe yoe)).sum := by
    rw [monthLens_sum]
    unfold yoeLen at a3
    exact a3
  obtain ⟨k, b1, b2, b3, b4, b5⟩ := monthSearch_char _ 1 doy m' d' hms hsum
  rw [monthLens_length] at b1
  simp only [civilFromDays] at heq
  rw [hys] at heq
  simp only at heq
  rw [hms] at heq
  obtain ⟨hy, hm, hd⟩ : 400 * ((z + 719528) / 146097) + (yoe : Int) = y ∧ m' = m ∧ d' = d := by
    have := Prod.mk.injEq .. ▸ heq
    exact ⟨(Prod.mk.injEq .. ▸ heq).1, congrArg (·.2.1) heq, congrArg (·.2.2) heq⟩
  subst hm; subst hd
  have hleap : isLeap y = isLeapYoe yoe := by
    rw [← hy]
    exact isLeap_eq _ yoe
  have hklt : k < (monthLens (isLeapYoe yoe)).length := by
    rw [monthLens_length]
    exact b1
  have hgetd : daysInMonth (isLeapYoe yoe) m' = (monthLens (isLeapYoe yoe))[k] := by
    unfold daysInMonth
    rw [show m' - 1 = k from by omega]
    exact List.getD_eq_getElem _ 0 _
  have htake := List.sum_take_succ (monthLens (isLeapYoe yoe)) k (by rw [monthLens_length]; exact b1)
  have hys0 : yearStart 0 = 0 := rfl
  refine ⟨by omega, by omega, by omega, ?_, ?_⟩
  · rw [hleap, hgetd]
    omega
  · unfold daysFromCivil
    have hyera : y / 400 = (z + 719528) / 146097 := by omega
    have hyyoe : y % 400 = (yoe : Int) := by omega
    rw [hyera, hyyoe, Int.toNat_natCast]
    unfold monthStart
    rw [show m' - 1 = k from by omega]
    have hinner : yearStart yoe + ((monthLens (isLeapYoe yoe)).take k).sum + (d' - 1) =
        ((z + 719528) % 146097).toNat := by
      omega
    simp only
    rw [hinner]
    omega

/-! ## Digit rendering facts -/

theorem digitChar_toNat (k : Nat) : (digitChar k).toNat = 48 + k % 10 := by
  unfold digitChar
  exact charOfNat_toNat (by omega)

theorem digitC_digitChar (k : Nat) : digitC (digitChar k) = true := by
  have h0 : ('0').toNat = 48 := rfl
  have h9 : ('9').toNat = 57 := rfl
  have ht := digitChar_toNat k
  simp only [digitC, Bool.and_eq_true, decide_eq_true_eq, charLe_iff]
  omega

theorem dval_digitChar (k : Nat) : dval (digitChar k) = k % 10 := by
  unfold dval
  rw [digitChar_toNat]
  omega

theorem digitChar_ne_T (k : Nat) : decide (digitChar k ≠ 'T') = true := by
  rw [decide_eq_true_eq]
  intro h
  have := (charEq_iff _ _).mp h
  rw [digitChar_toNat] at this
  have hT : ('T').toNat = 84 := rfl
  omega

/-- Four-digit numbers render to their four digit characters. -/
theorem natDec_four {n : Nat} (h1 : 1000 ≤ n) (h2 : n < 10000) :
    natDec n = [digitChar (n / 1000), digitChar (n / 100 % 10), digitChar (n / 10 % 10),
      digitChar (n % 10)] := by
  unfold natDec
  rw [if_neg (by omega), if_neg (by omega), if_neg (by omega), if_pos (by omega)]

/-- Two-digit-or-less numbers render (padded) to two digit characters. -/
theorem pad2_two {n : Nat} (h : n < 100) :
    pad2 n = [digitChar (n / 10), digitChar (n % 10)] := by
  unfold pad2 natDec
  by_cases hc : n < 10
  · rw [if_pos hc, if_pos hc]
    have hz : digitChar (n / 10) = '0' := by
      rw [show n / 10 = 0 from by omega]
      rfl
    rw [hz, show n % 10 = n from by omega]
  · rw [if_neg hc, if_neg hc, if_pos (by omega)]

theorem takeWhile_eq_self_of_all (p : Char → Bool) :
    ∀ l : List Char, (∀ c ∈ l, p c = true) → l.takeWhile p = l := by
  intro l
  induction l with
  | nil => intro _; rfl
  | cons a xs ih =>
    intro h
    rw [List.takeWhile_cons, if_pos (h a (List.mem_cons_self a xs)),
      ih (fun c hc => h c (List.mem_cons_of_mem a hc))]

theorem dropWhile_eq_nil_of_all (p : Char → Bool) :
    ∀ l : List Char, (∀ c ∈ l, p c = true) → l.dropWhile p = [] := by
  intro l
  induction l with
  | nil => intro _; rfl
  | cons a xs ih =>
    intro h
    rw [List.dropWhile_cons, if_pos (h a (List.mem_cons_self a xs))]
    exact ih (fun c hc => h c (List.mem_cons_of_mem a hc))

/-- Parsing the rendered date of a valid four-digit-year calendar date
recovers the date. -/
theorem parseDatePart_render {y : Int} {m d : Nat} (hy1 : 1000 ≤ y) (hy2 : y ≤ 9999)
    (hm1 : 1 ≤ m) (hm2 : m ≤ 12) (hd1 : 1 ≤ d) (hd2 : d ≤ daysInMonth (isLeap y) m) :
    parseDatePart [digitChar (y.toNat / 1000), digitChar (y.toNat / 100 % 10),
      digitChar (y.toNat / 10 % 10), digitChar (y.toNat % 10), '-',
      digitChar (m / 10), digitChar (m % 10), '-',
      digitChar (d / 10), digitChar (d % 10)] = some (y, m, d) := by
  have hyc : ((y.toNat : Int)) = y := Int.toNat_of_nonneg (by omega)
  have hy4 : d4 (digitChar (y.toNat / 1000)) (digitChar (y.toNat / 100 % 10))
      (digitChar (y.toNat / 10 % 10)) (digitChar (y.toNat % 10)) = y.toNat := by
    unfold d4
    rw [dval_digitChar, dval_digitChar, dval_digitChar, dval_digitChar]
    have : y.toNat < 10000 := by omega
    have : 1000 ≤ y.toNat := by omega
    omega
  have hm2' : d2 (digitChar (m / 10)) (digitChar (m % 10)) = m := by
    unfold d2
    rw [dval_digitChar, dval_digitChar]
    omega
  have hd2' : d2 (digitChar (d / 10)) (digitChar (d % 10)) = d := by
    unfold d2
    rw [dval_digitChar, dval_digitChar]
    have : d ≤ 31 := by
      have h31 : daysInMonth (isLeap y) m ≤ 31 := by
        cases isLeap y <;> interval_cases m <;> decide
      omega
    omega
  show (if ('-' : Char) = '-' ∧ ('-' : Char) = '-' ∧ digits4 _ _ _ _ = true ∧
      digitC (digitChar (m / 10)) = true ∧ digitC (digitChar (m % 10)) = true ∧
      1 ≤ d2 (digitChar (m / 10)) (digitChar (m % 10)) ∧
      d2 (digitChar (m / 10)) (digitChar (m % 10)) ≤ 12 ∧
      digitC (digitChar (d / 10)) = true ∧ digitC (digitChar (d % 10)) = true ∧
      1 ≤ d2 (digitChar (d / 10)) (digitChar (d % 10)) ∧
      d2 (digitChar (d / 10)) (digitChar (d % 10)) ≤
        daysInMonth (isLeap (d4 _ _ _ _)) (d2 (digitChar (m / 10)) (digitChar (m % 10))) then
      some ((d4 (digitChar (y.toNat / 1000)) (digitChar (y.toNat / 100 % 10))
        (digitChar (y.toNat / 10 % 10)) (digitChar (y.toNat % 10)) : Int),
        d2 (digitChar (m / 10)) (digitChar (m % 10)),
        d2 (digitChar (d / 10)) (digitChar (d % 10)))
    else none) = some (y, m, d)
  rw [if_pos ⟨rfl, rfl, by unfold digits4; simp [digitC_digitChar], digitC_digitChar _,
    digitC_digitChar _, by rw [hm2']; omega, by rw [hm2']; omega, digitC_digitChar _,
    digitC_digitChar _, by rw [hd2']; omega, by rw [hy4, hm2', hd2', hyc]; exact hd2⟩]
  rw [hy4, hm2', hd2', hyc]

/-- The host parser accepts a rendered four-digit-year date and returns the
UTC midnight of that calendar date. -/
theorem jsDateParse_render {y : Int} {m d : Nat} (hy1 : 1000 ≤ y) (hy2 : y ≤ 9999)
    (hm1 : 1 ≤ m) (hm2 : m ≤ 12) (hd1 : 1 ≤ d) (hd2 : d ≤ daysInMonth (isLeap y) m) :
    jsDateParse (renderDate y m d) = some (daysFromCivil y m d * msPerDay) := by
  have hd31 : d ≤ 31 := by
    have h31 : daysInMonth (isLeap y) m ≤ 31 := by
      cases isLeap y <;> interval_cases m <;> decide
    omega
  have hdata : (renderDate y m d).data =
      [digitChar (y.toNat / 1000), digitChar (y.toNat / 100 % 10),
        digitChar (y.toNat / 10 % 10), digitChar (y.toNat % 10), '-',
        digitChar (m / 10), digitChar (m % 10), '-',
        digitChar (d / 10), digitChar (d % 10)] := by
    show intDec y ++ '-' :: pad2 m ++ '-' :: pad2 d = _
    rw [intDec, if_neg (by omega), natDec_four (by omega) (by omega),
      pad2_two (show m < 100 by omega), pad2_two (show d < 100 by omega)]
    rfl
  have hall : ∀ c ∈ (renderDate y m d).data, (fun c => decide (c ≠ 'T')) c = true := by
    rw [hdata]
    intro c hc
    simp only [List.mem_cons, List.not_mem_nil, or_false] at hc
    rcases hc with rfl | rfl | rfl | rfl | rfl | rfl | rfl | rfl | rfl | rfl <;>
      first
        | exact digitChar_ne_T _
        | decide
  unfold jsDateParse
  rw [takeWhile_eq_self_of_all _ _ hall, dropWhile_eq_nil_of_all _ _ hall, hdata]
  simp only
  rw [parseDatePart_render hy1 hy2 hm1 hm2 hd1 hd2]

/-! ## `normalizeDate` facts -/

theorem normalizeDate_eq_ok (s : String) (ms : Int) (h : jsDateParse s = some ms) :
    normalizeDate s =
      .ok (renderDate (utcCivil ms).1 (utcCivil ms).2.1 (utcCivil ms).2.2) := by
  unfold normalizeDate
  rw [h]

theorem normalizeDate_eq_error (s : String) (h : jsDateParse s = none) :
    normalizeDate s = .error (.invalidFormat "date") := by
  unfold normalizeDate
  rw [h]

theorem pad2_length {n : Nat} (h : n < 100) : (pad2 n).length = 2 := by
  rw [pad2_two h]
  rfl

/-- `normalizeDate` is idempotent on dates whose UTC year has four
digits. -/
theorem normalizeDate_idem (ms : Int)
    (hy1 : 1000 ≤ (utcCivil ms).1) (hy2 : (utcCivil ms).1 ≤ 9999) :
    normalizeDate (renderDate (utcCivil ms).1 (utcCivil ms).2.1 (utcCivil ms).2.2) =
      .ok (renderDate (utcCivil ms).1 (utcCivil ms).2.1 (utcCivil ms).2.2) := by
  rcases hc : utcCivil ms with ⟨y, md⟩
  rcases hmd : md with ⟨m, d⟩
  subst hmd
  rw [hc] at hy1 hy2
  simp only at hy1 hy2
  obtain ⟨v1, v2, v3, v4, v5⟩ := civilFromDays_spec (ms / msPerDay) y m d (by
    unfold utcCivil at hc
    exact hc)
  have hparse := jsDateParse_render hy1 hy2 v1 v2 v3 v4
  unfold normalizeDate
  rw [hparse]
  simp only
  have hdiv : (daysFromCivil y m d * msPerDay) / msPerDay = daysFromCivil y m d :=
    Int.mul_ediv_cancel _ (by norm_num [msPerDay])
  have hcv : utcCivil (daysFromCivil y m d * msPerDay) = (y, m, d) := by
    unfold utcCivil
    rw [hdiv, v5]
    unfold utcCivil at hc
    exact hc
  rw [hcv]

/-! ## String-level normalization facts -/

theorem jsTrim_idem (s : String) : jsTrim (jsTrim s) = jsTrim s := by
  unfold jsTrim
  rw [show (String.mk (jsTrimL s.data)).data = jsTrimL s.data from rfl, jsTrimL_idem]

theorem jsToLower_idem (s : String) : jsToLower (jsToLower s) = jsToLower s := by
  unfold jsToLower
  rw [show (String.mk (s.data.map jsCharLower)).data = s.data.map jsCharLower from rfl,
    List.map_map]
  exact congrArg String.mk (List.map_congr_left (fun c _ => jsCharLower_idem c))

theorem jsCharLower_not_ws {c : Char} (h : jsWs c = false) :
    jsWs (jsCharLower c) = false := by
  by_cases hc : 65 ≤ c.toNat ∧ c.toNat ≤ 90
  · apply not_jsWs_of_visible
    rw [jsCharLower_toNat_of_upper hc.1 hc.2]
    omega
  · rw [jsCharLower_eq_self (by omega)]
    exact h

/-- Trimming is the identity when neither end is whitespace. -/
theorem jsTrimL_eq_self_of_edges (l : List Char)
    (hh : ∀ a, l.head? = some a → jsWs a = false)
    (hl : ∀ a, l.getLast? = some a → jsWs a = false) : jsTrimL l = l := by
  unfold jsTrimL
  rw [dropWhile_eq_self_of_head jsWs l hh,
    dropWhile_eq_self_of_head jsWs l.reverse
      (fun a ha => hl a (by rw [List.head?_reverse] at ha; exact ha)),
    List.reverse_reverse]

/-- Lower-casing preserves trim stability. -/
theorem jsTrim_toLower (s : String) (h : jsTrim s = s) :
    jsTrim (jsToLower s) = jsToLower s := by
  unfold jsTrim jsToLower at *
  rw [show (String.mk (s.data.map jsCharLower)).data = s.data.map jsCharLower from rfl]
  have hdata : jsTrimL s.data = s.data := congrArg String.data h
  apply congrArg String.mk
  apply jsTrimL_eq_self_of_edges
  · intro a ha
    rw [List.head?_map] at ha
    rcases hs : s.data.head? with _ | b
    · rw [hs] at ha; exact Option.noConfusion ha
    · rw [hs] at ha
      injection ha with ha
      rw [← ha]
      exact jsCharLower_not_ws (by
        apply jsTrimL_head s.data
        rw [hdata]
        exact hs)
  · intro a ha
    rw [List.getLast?_map] at ha
    rcases hs : s.data.getLast? with _ | b
    · rw [hs] at ha; exact Option.noConfusion ha
    · rw [hs] at ha
      injection ha with ha
      rw [← ha]
      exact jsCharLower_not_ws (by
        apply jsTrimL_getLast s.data
        rw [hdata]
        exact hs)

theorem jsToLower_ne_empty {s : String} (h : s ≠ "") : jsToLower s ≠ "" := by
  intro hc
  apply h
  have : s.data.map jsCharLower = [] := congrArg String.data hc
  rw [List.map_eq_nil_iff] at this
  exact congrArg String.mk this

/-! ## Agenda and tag sanitization -/

theorem trimItems_ok (fld : String) :
    ∀ l r, trimItems fld l = .ok r →
      r = l.map jsTrim ∧ ∀ x ∈ l, jsTrim x ≠ "" := by
  intro l
  induction l with
  | nil =>
    intro r h
    unfold trimItems at h
    injection h with h
    exact ⟨h.symm, by simp⟩
  | cons x xs ih =>
    intro r h
    unfold trimItems at h
    by_cases hx : jsTrim x = ""
    · rw [if_pos hx] at h
      exact Except.noConfusion h
    · rw [if_neg hx] at h
      rcases hxs : trimItems fld xs with err | r'
      · rw [hxs] at h
        exact Except.noConfusion h
      · rw [hxs] at h
        injection h with h
        obtain ⟨hr', hall⟩ := ih r' hxs
        subst hr'
        refine ⟨by rw [← h]; rfl, ?_⟩
        intro z hz
        rcases List.mem_cons.mp hz with hz | hz
        · rw [hz]; exact hx
        · exact hall z hz

theorem trimItems_error (fld : String) :
    ∀ l, (∃ x ∈ l, jsTrim x = "") → trimItems fld l = .error (.emptyListItem fld) := by
  intro l
  induction l with
  | nil => intro h; simp at h
  | cons x xs ih =>
    intro h
    unfold trimItems
    by_cases hx : jsTrim x = ""
    · rw [if_pos hx]
    · rw [if_neg hx]
      obtain ⟨z, hz, hzt⟩ := h
      rcases List.mem_cons.mp hz with hz' | hz'
      · exact absurd (hz' ▸ hzt) hx
      · rw [ih ⟨z, hz', hzt⟩]

theorem trimLowerItems_ok (fld : String) :
    ∀ l r, trimLowerItems fld l = .ok r →
      r = l.map (fun x => jsToLower (jsTrim x)) ∧ ∀ x ∈ l, jsTrim x ≠ "" := by
  intro l
  induction l with
  | nil =>
    intro r h
    unfold trimLowerItems at h
    injection h with h
    exact ⟨h.symm, by simp⟩
  | cons x xs ih =>
    intro r h
    unfold trimLowerItems at h
    by_cases hx : jsTrim x = ""
    · rw [if_pos hx] at h
      exact Except.noConfusion h
    · rw [if_neg hx] at h
      rcases hxs : trimLowerItems fld xs with err | r'
      · rw [hxs] at h
        exact Except.noConfusion h
      · rw [hxs] at h
        injection h with h
        obtain ⟨hr', hall⟩ := ih r' hxs
        subst hr'
        refine ⟨by rw [← h]; rfl, ?_⟩
        intro z hz
        rcases List.mem_cons.mp hz with hz | hz
        · rw [hz]; exact hx
        · exact hall z hz

theorem trimLowerItems_error (fld : String) :
    ∀ l, (∃ x ∈ l, jsTrim x = "") → trimLowerItems fld l = .error (.emptyListItem fld) := by
  intro l
  induction l with
  | nil => intro h; simp at h
  | cons x xs ih =>
    intro h
    unfold trimLowerItems
    by_cases hx : jsTrim x = ""
    · rw [if_pos hx]
    · rw [if_neg hx]
      obtain ⟨z, hz, hzt⟩ := h
      rcases List.mem_cons.mp hz with hz' | hz'
      · exact absurd (hz' ▸ hzt) hx
      · rw [ih ⟨z, hz', hzt⟩]

/-! ## Event pre-save facts -/

/-- Full characterization of an accepting run of the Event pre-save hook:
every check passed and the returned document is the input with sanitized
agenda and tags, normalized date and time, and the slug rule applied. -/
theorem eventPreSave_ok (e : EventInput) (r : EventInput) (h : eventPreSave e = .ok r) :
    jsTrim e.title ≠ "" ∧ jsTrim e.description ≠ "" ∧ jsTrim e.overview ≠ "" ∧
    jsTrim e.image ≠ "" ∧ jsTrim e.venue ≠ "" ∧ jsTrim e.location ≠ "" ∧
    jsTrim e.mode ≠ "" ∧ jsTrim e.audience ≠ "" ∧ jsTrim e.organizer ≠ "" ∧
    e.agenda ≠ [] ∧ e.tags ≠ [] ∧ (∀ x ∈ e.agenda, jsTrim x ≠ "") ∧
    (∀ x ∈ e.tags, jsTrim x ≠ "") ∧
    ∃ date' time', normalizeDate e.date = .ok date' ∧ normalizeTime e.time = .ok time' ∧
      r = { e with agenda := e.agenda.map jsTrim,
                   tags := e.tags.map (fun t => jsToLower (jsTrim t)),
                   date := date', time := time',
                   slug := if e.isNew || e.titleModified then slugifyTitle e.title
                           else e.slug } := by
  unfold eventPreSave at h
  by_cases h1 : jsTrim e.title = ""
  · rw [if_pos h1] at h; exact Except.noConfusion h
  rw [if_neg h1] at h
  by_cases h2 : jsTrim e.description = ""
  · rw [if_pos h2] at h; exact Except.noConfusion h
  rw [if_neg h2] at h
  by_cases h3 : jsTrim e.overview = ""
  · rw [if_pos h3] at h; exact Except.noConfusion h
  rw [if_neg h3] at h
  by_cases h4 : jsTrim e.image = ""
  · rw [if_pos h4] at h; exact Except.noConfusion h
  rw [if_neg h4] at h
  by_cases h5 : jsTrim e.venue = ""
  · rw [if_pos h5] at h; exact Except.noConfusion h
  rw [if_neg h5] at h
  by_cases h6 : jsTrim e.location = ""
  · rw [if_pos h6] at h; exact Except.noConfusion h
  rw [if_neg h6] at h
  by_cases h7 : jsTrim e.mode = ""
  · rw [if_pos h7] at h; exact Except.noConfusion h
  rw [if_neg h7] at h
  by_cases h8 : jsTrim e.audience = ""
  · rw [if_pos h8] at h; exact Except.noConfusion h
  rw [if_neg h8] at h
  by_cases h9 : jsTrim e.organizer = ""
  · rw [if_pos h9] at h; exact Except.noConfusion h
  rw [if_neg h9] at h
  by_cases h10 : e.agenda = []
  · rw [if_pos h10] at h; exact Except.noConfusion h
  rw [if_neg h10] at h
  by_cases h11 : e.tags = []
  · rw [if_pos h11] at h; exact Except.noConfusion h
  rw [if_neg h11] at h
  rcases ha : trimItems "agenda" e.agenda with err | agenda'
  · rw [ha] at h; exact Except.noConfusion h
  rw [ha] at h
  rcases hb : trimLowerItems "tags" e.tags with err | tags'
  · rw [hb] at h; exact Except.noConfusion h
  rw [hb] at h
  rcases hd : normalizeDate e.date with err | date'
  · rw [hd] at h; exact Except.noConfusion h
  rw [hd] at h
  rcases ht : normalizeTime e.time with err | time'
  · rw [ht] at h; exact Except.noConfusion h
  rw [ht] at h
  replace h : (Except.ok ({ e with
      agenda := agenda'
      tags := tags'
      date := date'
      time := time'
      slug := if e.isNew || e.titleModified then slugifyTitle e.title
              else e.slug }) : Except VErr EventInput) = Except.ok r := h
  injection h with h
  obtain ⟨haeq, hanall⟩ := trimItems_ok "agenda" e.agenda agenda' ha
  obtain ⟨hbeq, hbnall⟩ := trimLowerItems_ok "tags" e.tags tags' hb
  subst haeq
  subst hbeq
  subst h
  exact ⟨h1, h2, h3, h4, h5, h6, h7, h8, h9, h10, h11, hanall, hbnall,
    date', time', rfl, rfl, rfl⟩

theorem trimItems_ok_of_all (fld : String) :
    ∀ l, (∀ x ∈ l, jsTrim x ≠ "") → trimItems fld l = .ok (l.map jsTrim) := by
  intro l
  induction l with
  | nil => intro _; rfl
  | cons x xs ih =>
    intro h
    unfold trimItems
    rw [if_neg (h x (List.mem_cons_self x xs)),
      ih (fun z hz => h z (List.mem_cons_of_mem x hz))]
    rfl

theorem trimLowerItems_ok_of_all (fld : String) :
    ∀ l, (∀ x ∈ l, jsTrim x ≠ "") →
      trimLowerItems fld l = .ok (l.map (fun x => jsToLower (jsTrim x))) := by
  intro l
  induction l with
  | nil => intro _; rfl
  | cons x xs ih =>
    intro h
    unfold trimLowerItems
    rw [if_neg (h x (List.mem_cons_self x xs)),
      ih (fun z hz => h z (List.mem_cons_of_mem x hz))]
    rfl

theorem eventPreSave_agenda_empty (e : EventInput) (hs : scalarsOk e)
    (ha : e.agenda = []) : eventPreSave e = .error (.missingField "agenda") := by
  obtain ⟨h1, h2, h3, h4, h5, h6, h7, h8, h9⟩ := hs
  unfold eventPreSave
  rw [if_neg h1, if_neg h2, if_neg h3, if_neg h4, if_neg h5, if_neg h6, if_neg h7,
    if_neg h8, if_neg h9, if_pos ha]

theorem eventPreSave_tags_empty (e : EventInput) (hs : scalarsOk e)
    (ha : e.agenda ≠ []) (ht : e.tags = []) :
    eventPreSave e = .error (.missingField "tags") := by
  obtain ⟨h1, h2, h3, h4, h5, h6, h7, h8, h9⟩ := hs
  unfold eventPreSave
  rw [if_neg h1, if_neg h2, if_neg h3, if_neg h4, if_neg h5, if_neg h6, if_neg h7,
    if_neg h8, if_neg h9, if_neg ha, if_pos ht]

theorem eventPreSave_agenda_item_blank (e : EventInput) (hs : scalarsOk e)
    (ha : e.agenda ≠ []) (ht : e.tags ≠ []) (hx : ∃ x ∈ e.agenda, jsTrim x = "") :
    eventPreSave e = .error (.emptyListItem "agenda") := by
  obtain ⟨h1, h2, h3, h4, h5, h6, h7, h8, h9⟩ := hs
  unfold eventPreSave
  rw [if_neg h1, if_neg h2, if_neg h3, if_neg h4, if_neg h5, if_neg h6, if_neg h7,
    if_neg h8, if_neg h9, if_neg ha, if_neg ht, trimItems_error "agenda" e.agenda hx]

theorem eventPreSave_tags_item_blank (e : EventInput) (hs : scalarsOk e)
    (ha : e.agenda ≠ []) (ht : e.tags ≠ []) (hall : ∀ x ∈ e.agenda, jsTrim x ≠ "")
    (hx : ∃ x ∈ e.tags, jsTrim x = "") :
    eventPreSave e = .error (.emptyListItem "tags") := by
  obtain ⟨h1, h2, h3, h4, h5, h6, h7, h8, h9⟩ := hs
  unfold eventPreSave
  rw [if_neg h1, if_neg h2, if_neg h3, if_neg h4, if_neg h5, if_neg h6, if_neg h7,
    if_neg h8, if_neg h9, if_neg ha, if_neg ht, trimItems_ok_of_all "agenda" e.agenda hall,
    trimLowerItems_error "tags" e.tags hx]

theorem eventPreSave_date_invalid (e : EventInput) (hs : scalarsOk e)
    (ha : e.agenda ≠ []) (ht : e.tags ≠ []) (hall : ∀ x ∈ e.agenda, jsTrim x ≠ "")
    (htall : ∀ x ∈ e.tags, jsTrim x ≠ "") (hd : jsDateParse e.date = none) :
    eventPreSave e = .error (.invalidFormat "date") := by
  obtain ⟨h1, h2, h3, h4, h5, h6, h7, h8, h9⟩ := hs
  unfold eventPreSave
  rw [if_neg h1, if_neg h2, if_neg h3, if_neg h4, if_neg h5, if_neg h6, if_neg h7,
    if_neg h8, if_neg h9, if_neg ha, if_neg ht, trimItems_ok_of_all "agenda" e.agenda hall,
    trimLowerItems_ok_of_all "tags" e.tags htall, normalizeDate_eq_error e.date hd]

theorem eventPreSave_time_invalid (e : EventInput) (hs : scalarsOk e)
    (ha : e.agenda ≠ []) (ht : e.tags ≠ []) (hall : ∀ x ∈ e.agenda, jsTrim x ≠ "")
    (htall : ∀ x ∈ e.tags, jsTrim x ≠ "") (ms : Int) (hd : jsDateParse e.date = some ms)
    (htm : specTimeAccept e.time = false) :
    eventPreSave e = .error (.invalidFormat "time") := by
  obtain ⟨h1, h2, h3, h4, h5, h6, h7, h8, h9⟩ := hs
  have herr : normalizeTime e.time = .error (.invalidFormat "time") := by
    apply normalizeTime_error_shape
    intro r hr
    have : (normalizeTime e.time).isOk = true := by rw [hr]; rfl
    rw [normalizeTime_isOk_iff, htm] at this
    exact Bool.false_ne_true this
  unfold eventPreSave
  rw [if_neg h1, if_neg h2, if_neg h3, if_neg h4, if_neg h5, if_neg h6, if_neg h7,
    if_neg h8, if_neg h9, if_neg ha, if_neg ht, trimItems_ok_of_all "agenda" e.agenda hall,
    trimLowerItems_ok_of_all "tags" e.tags htall, normalizeDate_eq_ok e.date ms hd, herr]

/-! ## Email shape facts -/

/-- A `'.'` strictly inside a list splits it with non-empty sides. -/
theorem dot_split (dom : List Char) (h : '.' ∈ dom.dropLast.drop 1) :
    ∃ B C, dom = B ++ '.' :: C ∧ B ≠ [] ∧ C ≠ [] := by
  obtain ⟨s1, t1, hst⟩ := List.append_of_mem h
  have h2 : dom.dropLast ≠ [] := by
    intro hc
    rw [hc] at hst
    simp at hst
  rcases hdl : dom.dropLast with _ | ⟨c0, rest0⟩
  · exact absurd hdl h2
  have hrest0 : rest0 = s1 ++ '.' :: t1 := by
    rw [hdl] at hst
    simpa using hst
  have hdomne : dom ≠ [] := by
    intro hc
    rw [hc] at hdl
    exact List.noConfusion hdl
  have hsplit : dom = dom.dropLast ++ [dom.getLast hdomne] :=
    (List.dropLast_append_getLast hdomne).symm
  refine ⟨c0 :: s1, t1 ++ [dom.getLast hdomne], ?_, by simp, by simp⟩
  calc dom = dom.dropLast ++ [dom.getLast hdomne] := hsplit
    _ = (c0 :: rest0) ++ [dom.getLast hdomne] := by rw [hdl]
    _ = c0 :: s1 ++ '.' :: (t1 ++ [dom.getLast hdomne]) := by rw [hrest0]; simp

/-- What acceptance by the email regex guarantees about the trimmed string:
exactly one `'@'`, no whitespace anywhere, and a decomposition
`A ++ "@" ++ B ++ "." ++ C` with `A`, `B`, `C` non-empty and free of `'@'`. -/
theorem isValidEmail_shape (s : String) (h : isValidEmail s = true) :
    (∀ c ∈ jsTrimL s.data, jsWs c = false) ∧ (jsTrimL s.data).count '@' = 1 ∧
    ∃ A B C, jsTrimL s.data = A ++ '@' :: B ++ '.' :: C ∧ A ≠ [] ∧ B ≠ [] ∧ C ≠ [] ∧
      (∀ c ∈ A, c ≠ '@') ∧ (∀ c ∈ B, c ≠ '@') ∧ (∀ c ∈ C, c ≠ '@') := by
  unfold isValidEmail at h
  simp only at h
  rcases hrest : (jsTrimL s.data).dropWhile (fun c => decide (c ≠ '@')) with _ | ⟨at_, dom⟩
  · rw [hrest] at h
    exact absurd h (by simp)
  rw [hrest] at h
  have hat : at_ = '@' := by
    by_contra hne
    have := dropWhile_head_false (fun c => decide (c ≠ '@')) (jsTrimL s.data) at_
      (by rw [hrest]; rfl)
    simp only [decide_eq_false_iff_not, not_not] at this
    exact hne this
  subst hat
  simp only [Bool.and_eq_true, decide_eq_true_eq, List.all_eq_true,
    Bool.not_eq_true'] at h
  obtain ⟨⟨⟨hfirst, hws⟩, hdom⟩, hdot⟩ := h
  have hdotmem : '.' ∈ dom.dropLast.drop 1 := List.mem_of_elem_eq_true hdot
  have hsplit := List.takeWhile_append_dropWhile (fun c => decide (c ≠ '@')) (jsTrimL s.data)
  rw [hrest] at hsplit
  obtain ⟨B, C, hbc, hBne, hCne⟩ := dot_split dom hdotmem
  have hfirstA : ∀ c ∈ (jsTrimL s.data).takeWhile (fun c => decide (c ≠ '@')), c ≠ '@' := by
    intro c hc
    have := List.mem_takeWhile_imp hc
    simpa using this
  refine ⟨hws, ?_, (jsTrimL s.data).takeWhile (fun c => decide (c ≠ '@')), B, C, ?_, ?_,
    hBne, hCne, hfirstA, ?_, ?_⟩
  · rw [← hsplit, List.count_append]
    have hc1 : ((jsTrimL s.data).takeWhile (fun c => decide (c ≠ '@'))).count '@' = 0 :=
      List.count_eq_zero.mpr (fun hc => hfirstA '@' hc rfl)
    have hc2 : dom.count '@' = 0 :=
      List.count_eq_zero.mpr (fun hc => hdom '@' hc rfl)
    rw [hc1, List.count_cons_self, hc2]
  · conv_lhs => rw [← hsplit, hbc]
    simp
  · intro hc
    rw [hc] at hfirst
    exact hfirst rfl
  · intro c hc
    exact hdom c (by rw [hbc]; exact List.mem_append_left _ hc)
  · intro c hc
    exact hdom c (by rw [hbc]; exact List.mem_append_right _ (List.mem_cons_of_mem _ hc))

/-! ## Remaining helper facts -/

theorem daysInMonth_le_31 (leap : Bool) (m : Nat) : daysInMonth leap m ≤ 31 := by
  have hb : ∀ x ∈ monthLens leap, x ≤ 31 := by cases leap <;> decide
  unfold daysInMonth
  rcases Nat.lt_or_ge (m - 1) (monthLens leap).length with h | h
  · rw [List.getD_eq_getElem _ 0 h]
    exact hb _ (List.getElem_mem h)
  · rw [List.getD_eq_default _ 0 h]
    omega

/-- The canonical shape of a successful `normalizeDate` result. -/
theorem normalizeDate_ok_shape (s : String) (r : String) (h : normalizeDate s = .ok r) :
    ∃ y m d, 1 ≤ m ∧ m ≤ 12 ∧ 1 ≤ d ∧ d ≤ daysInMonth (isLeap y) m ∧
      r = renderDate y m d := by
  rcases hp : jsDateParse s with _ | ms
  · rw [normalizeDate_eq_error s hp] at h
    exact Except.noConfusion h
  · rw [normalizeDate_eq_ok s ms hp] at h
    injection h with h
    rcases hc : utcCivil ms with ⟨y, md⟩
    rcases hmd : md with ⟨m, d⟩
    subst hmd
    obtain ⟨v1, v2, v3, v4, -⟩ := civilFromDays_spec (ms / msPerDay) y m d (by
      unfold utcCivil at hc
      exact hc)
    refine ⟨y, m, d, v1, v2, v3, v4, ?_⟩
    rw [← h, hc]

/-! ## Claims -/

/-- C1 (counterexample): the claim says every validation-accepted title
produces a non-empty slug with no leading or trailing hyphen.  The title
`"!!!"` passes the trim-presence check yet slugifies to the empty string,
and the accepted title `"-a-"` keeps its leading and trailing hyphens. -/
theorem c1_slug_urlsafe_counterexample :
    jsTrim "!!!" ≠ "" ∧ slugifyTitle "!!!" = "" ∧
    jsTrim "-a-" ≠ "" ∧ slugifyTitle "-a-" = "-a-" :=
  ⟨by decide, by decide, by decide, by decide⟩

/-- C1 (amended): for every title accepted by Event validation (non-empty
after trimming), every character of the stored slug is a hyphen, digit or
lower-case letter, and the slug contains no run of two or more consecutive
hyphens; the slug may however be empty and may begin or end with a
hyphen. -/
theorem c1_slug_urlsafe (title : String) (_haccept : jsTrim title ≠ "") :
    (∀ c ∈ (slugifyTitle title).data,
      c = '-' ∨ ('0' ≤ c ∧ c ≤ '9') ∨ ('a' ≤ c ∧ c ≤ 'z')) ∧
    (slugifyTitle title).data.Chain' (fun x y => ¬(x = '-' ∧ y = '-')) :=
  ⟨slugifyTitleL_chars title.data, slugifyTitleL_chain title.data⟩

/-- Witness for C1 at the title `"Hello World!"`. -/
theorem c1_slug_urlsafe_witness :
    jsTrim "Hello World!" ≠ "" ∧
    ((∀ c ∈ (slugifyTitle "Hello World!").data,
        c = '-' ∨ ('0' ≤ c ∧ c ≤ '9') ∨ ('a' ≤ c ∧ c ≤ 'z')) ∧
      (slugifyTitle "Hello World!").data.Chain' (fun x y => ¬(x = '-' ∧ y = '-'))) :=
  ⟨by decide, c1_slug_urlsafe "Hello World!" (by decide)⟩

/-- C3: `normalizeTime` succeeds exactly on trimmed `HH:MM` or `HH:MM:SS`
inputs with hours 00–23 and minutes/seconds 00–59; on success it returns
exactly the five-character `HH:MM` prefix of the trimmed input (seconds
discarded), otherwise it fails with the time `InvalidFormat` error; in
particular `normalizeTime "09:05:30" = "09:05"` and
`normalizeTime "9:5"` fails. -/
theorem c3_normalizeTime (s : String) :
    ((normalizeTime s).isOk = true ↔ specTimeAccept s = true) ∧
    (∀ r, normalizeTime s = .ok r → r.length = 5 ∧ r.data = (jsTrimL s.data).take 5) ∧
    (specTimeAccept s = false → normalizeTime s = .error (.invalidFormat "time")) ∧
    normalizeTime "09:05:30" = .ok "09:05" ∧
    normalizeTime "9:5" = .error (.invalidFormat "time") := by
  refine ⟨normalizeTime_isOk_iff s, ?_, ?_, rfl, rfl⟩
  · intro r hr
    obtain ⟨a, b, c, d, hr', hH, hM, htake⟩ := normalizeTime_ok_shape s r hr
    subst hr'
    exact ⟨rfl, htake.symm⟩
  · intro hf
    apply normalizeTime_error_shape
    intro r hr
    have hok : (normalizeTime s).isOk = true := by rw [hr]; rfl
    rw [normalizeTime_isOk_iff, hf] at hok
    exact Bool.false_ne_true hok

/-- Witness for C3 at the input `"09:05:30"`. -/
theorem c3_normalizeTime_witness :
    ("09:05" : String).length = 5 ∧
    ("09:05" : String).data = (jsTrimL ("09:05:30" : String).data).take 5 :=
  (c3_normalizeTime "09:05:30").2.1 "09:05" rfl

/-- C5: the Slug Generator computes exactly the spec's five-step pipeline
(lower-case, trim, filter to `[a-z0-9\s-]`, collapse whitespace runs to a
hyphen, collapse hyphen runs), and
`slugify "  Hello, World!! 2024  " = "hello-world-2024"`,
`slugify "!!!" = ""`. -/
theorem c5_slugify (title : String) :
    slugifyTitle title = specSlugify title ∧
    slugifyTitle "  Hello, World!! 2024  " = "hello-world-2024" ∧
    slugifyTitle "!!!" = "" := by
  refine ⟨?_, by decide, by decide⟩
  unfold slugifyTitle specSlugify slugifyTitleL
  rw [collapseRuns_eq_specCollapse, collapseRuns_eq_specCollapse]

/-- C10: every string accepted by the Booking email check has, after
trimming, exactly one `'@'`, no whitespace, and splits as
`A ++ "@" ++ B ++ "." ++ C` with `A`, `B`, `C` non-empty and `'@'`-free —
i.e. a character before the `'@'`, a `'.'` strictly between the `'@'` and
the end, and characters on both sides of that `'.'`. -/
theorem c10_email_shape (s : String) (h : isValidEmail s = true) :
    (∀ c ∈ jsTrimL s.data, jsWs c = false) ∧ (jsTrimL s.data).count '@' = 1 ∧
    ∃ A B C, jsTrimL s.data = A ++ '@' :: B ++ '.' :: C ∧ A ≠ [] ∧ B ≠ [] ∧ C ≠ [] ∧
      (∀ c ∈ A, c ≠ '@') ∧ (∀ c ∈ B, c ≠ '@') ∧ (∀ c ∈ C, c ≠ '@') :=
  isValidEmail_shape s h

/-- Witness for C10 at `"user@example.com"`. -/
theorem c10_email_shape_witness :
    (∀ c ∈ jsTrimL ("user@example.com" : String).data, jsWs c = false) ∧
    (jsTrimL ("user@example.com" : String).data).count '@' = 1 ∧
    ∃ A B C, jsTrimL ("user@example.com" : String).data = A ++ '@' :: B ++ '.' :: C ∧
      A ≠ [] ∧ B ≠ [] ∧ C ≠ [] ∧
      (∀ c ∈ A, c ≠ '@') ∧ (∀ c ∈ B, c ≠ '@') ∧ (∀ c ∈ C, c ≠ '@') :=
  c10_email_shape "user@example.com" rfl

/-- C4 (counterexample): the claim says a successful `normalizeDate` result
is zero-padded `YYYY-MM-DD`.  The source pads only month and day, not the
year: the ECMA-conformant input `"0999-01-01"` parses, and the code renders
`"999-01-01"` — nine characters, with a three-digit year. -/
theorem c4_normalizeDate_counterexample :
    normalizeDate "0999-01-01" = .ok "999-01-01" ∧
    ("999-01-01" : String).length ≠ 10 :=
  ⟨rfl, by decide⟩

/-- C4 (amended): `normalizeDate` fails with the date `InvalidFormat` error
exactly when the host parser fails (including empty and garbage strings);
on success it renders the valid UTC calendar date as year (as an unpadded
decimal, equal to zero-padded `YYYY` only for years 1000–9999), then month
and day zero-padded to two digits, joined by hyphens; in particular
`normalizeDate "2024-03-01T23:00:00-05:00" = "2024-03-02"` (UTC-anchored
day rollover) and `normalizeDate "not-a-date"` fails. -/
theorem c4_normalizeDate (s : String) :
    (normalizeDate s = .error (.invalidFormat "date") ↔ jsDateParse s = none) ∧
    (∀ ms, jsDateParse s = some ms →
      ∃ y m d, utcCivil ms = (y, m, d) ∧ 1 ≤ m ∧ m ≤ 12 ∧ 1 ≤ d ∧
        d ≤ daysInMonth (isLeap y) m ∧ normalizeDate s = .ok (renderDate y m d) ∧
        (pad2 m).length = 2 ∧ (pad2 d).length = 2) ∧
    normalizeDate "2024-03-01T23:00:00-05:00" = .ok "2024-03-02" ∧
    normalizeDate "not-a-date" = .error (.invalidFormat "date") ∧
    normalizeDate "" = .error (.invalidFormat "date") := by
  refine ⟨⟨?_, normalizeDate_eq_error s⟩, ?_, rfl, rfl, rfl⟩
  · intro h
    rcases hp : jsDateParse s with _ | ms
    · rfl
    · rw [normalizeDate_eq_ok s ms hp] at h
      exact Except.noConfusion h
  · intro ms hp
    rcases hc : utcCivil ms with ⟨y, md⟩
    rcases hmd : md with ⟨m, d⟩
    subst hmd
    obtain ⟨v1, v2, v3, v4, -⟩ := civilFromDays_spec (ms / msPerDay) y m d (by
      unfold utcCivil at hc
      exact hc)
    have hd31 : d ≤ 31 := le_trans v4 (daysInMonth_le_31 _ _)
    refine ⟨y, m, d, rfl, v1, v2, v3, v4, ?_, pad2_length (by omega), pad2_length (by omega)⟩
    rw [normalizeDate_eq_ok s ms hp, hc]

/-- Witness for C4 at the input `"2024-03-02"`. -/
theorem c4_normalizeDate_witness :
    ∃ y m d, utcCivil 1709337600000 = (y, m, d) ∧ 1 ≤ m ∧ m ≤ 12 ∧ 1 ≤ d ∧
      d ≤ daysInMonth (isLeap y) m ∧
      normalizeDate "2024-03-02" = .ok (renderDate y m d) ∧
      (pad2 m).length = 2 ∧ (pad2 d).length = 2 :=
  (c4_normalizeDate "2024-03-02").2.1 1709337600000 rfl

/-- C9 (counterexample): the claim says each normalizer is idempotent on
its own output.  `normalizeDate "0999-01-01"` succeeds with `"999-01-01"`,
but re-normalizing `"999-01-01"` fails: a three-digit year is not a
conformant date string. -/
theorem c9_idempotent_counterexample :
    normalizeDate "0999-01-01" = .ok "999-01-01" ∧
    normalizeDate "999-01-01" = .error (.invalidFormat "date") :=
  ⟨rfl, rfl⟩

/-- C9 (amended): `slugify` is idempotent on every input, `normalizeTime`
is idempotent on every success, and `normalizeDate` is idempotent on every
success whose UTC year has four digits (1000–9999); outputs with shorter
years re-render outside the parseable format. -/
theorem c9_idempotent :
    (∀ s, slugifyTitle (slugifyTitle s) = slugifyTitle s) ∧
    (∀ s r, normalizeTime s = .ok r → normalizeTime r = .ok r) ∧
    (∀ s ms, jsDateParse s = some ms → 1000 ≤ (utcCivil ms).1 →
      (utcCivil ms).1 ≤ 9999 → ∀ r, normalizeDate s = .ok r →
        normalizeDate r = .ok r) := by
  refine ⟨slugifyTitle_idem, normalizeTime_idem, ?_⟩
  intro s ms hp h1 h2 r hr
  rw [normalizeDate_eq_ok s ms hp] at hr
  injection hr with hr
  subst hr
  exact normalizeDate_idem ms h1 h2

/-- Witness for C9 at `"09:05"` and `"2024-03-02"`. -/
theorem c9_idempotent_witness :
    normalizeTime "09:05" = .ok "09:05" ∧
    normalizeDate "2024-03-02" = .ok "2024-03-02" :=
  ⟨c9_idempotent.2.1 "09:05" "09:05" rfl,
    c9_idempotent.2.2 "2024-03-02" 1709337600000 rfl (by decide) (by decide)
      "2024-03-02" rfl⟩

/-- C2 (counterexample): the claim says a blank agenda element is reported
before any failure concerning tags.  The code checks tags non-emptiness
before mapping over agenda elements: with `agenda = ["  "]` and
`tags = []` the save fails with the tags `MissingField`, not the agenda
`EmptyListItem`. -/
theorem c2_order_counterexample :
    eventPreSave { okEvent with agenda := ["  "], tags := [] } =
      .error (.missingField "tags") ∧
    VErr.missingField "tags" ≠ VErr.emptyListItem "agenda" :=
  ⟨rfl, by decide⟩

/-- C2 (amended): validation executes in source order — the nine
trim-presence checks (title, description, overview, image, venue, location,
mode, audience, organizer; `MissingField`), then agenda non-emptiness and
then tags non-emptiness (`MissingField`), then the agenda element map and
then the tags element map (`EmptyListItem`), then date and then time
normalization (`InvalidFormat`) — each step short-circuiting.  In
particular `agenda = []` yields `MissingField` and
`agenda = ["  ", "Keynote"]` (with non-empty tags) yields `EmptyListItem`,
but a blank agenda element is reported only after tags non-emptiness:
`agenda = ["  "], tags = []` yields the tags `MissingField`. -/
theorem c2_validation_order (e : EventInput) :
    (jsTrim e.title = "" → eventPreSave e = .error (.missingField "title")) ∧
    (jsTrim e.title ≠ "" → jsTrim e.description = "" →
      eventPreSave e = .error (.missingField "description")) ∧
    (jsTrim e.title ≠ "" → jsTrim e.description ≠ "" → jsTrim e.overview = "" →
      eventPreSave e = .error (.missingField "overview")) ∧
    (jsTrim e.title ≠ "" → jsTrim e.description ≠ "" → jsTrim e.overview ≠ "" →
      jsTrim e.image = "" → eventPreSave e = .error (.missingField "image")) ∧
    (jsTrim e.title ≠ "" → jsTrim e.description ≠ "" → jsTrim e.overview ≠ "" →
      jsTrim e.image ≠ "" → jsTrim e.venue = "" →
      eventPreSave e = .error (.missingField "venue")) ∧
    (jsTrim e.title ≠ "" → jsTrim e.description ≠ "" → jsTrim e.overview ≠ "" →
      jsTrim e.image ≠ "" → jsTrim e.venue ≠ "" → jsTrim e.location = "" →
      eventPreSave e = .error (.missingField "location")) ∧
    (jsTrim e.title ≠ "" → jsTrim e.description ≠ "" → jsTrim e.overview ≠ "" →
      jsTrim e.image ≠ "" → jsTrim e.venue ≠ "" → jsTrim e.location ≠ "" →
      jsTrim e.mode = "" → eventPreSave e = .error (.missingField "mode")) ∧
    (jsTrim e.title ≠ "" → jsTrim e.description ≠ "" → jsTrim e.overview ≠ "" →
      jsTrim e.image ≠ "" → jsTrim e.venue ≠ "" → jsTrim e.location ≠ "" →
      jsTrim e.mode ≠ "" → jsTrim e.audience = "" →
      eventPreSave e = .error (.missingField "audience")) ∧
    (jsTrim e.title ≠ "" → jsTrim e.description ≠ "" → jsTrim e.overview ≠ "" →
      jsTrim e.image ≠ "" → jsTrim e.venue ≠ "" → jsTrim e.location ≠ "" →
      jsTrim e.mode ≠ "" → jsTrim e.audience ≠ "" → jsTrim e.organizer = "" →
      eventPreSave e = .error (.missingField "organizer")) ∧
    (scalarsOk e → e.agenda = [] → eventPreSave e = .error (.missingField "agenda")) ∧
    (scalarsOk e → e.agenda ≠ [] → e.tags = [] →
      eventPreSave e = .error (.missingField "tags")) ∧
    (scalarsOk e → e.agenda ≠ [] → e.tags ≠ [] → (∃ x ∈ e.agenda, jsTrim x = "") →
      eventPreSave e = .error (.emptyListItem "agenda")) ∧
    (scalarsOk e → e.agenda ≠ [] → e.tags ≠ [] → (∀ x ∈ e.agenda, jsTrim x ≠ "") →
      (∃ x ∈ e.tags, jsTrim x = "") →
      eventPreSave e = .error (.emptyListItem "tags")) ∧
    (scalarsOk e → e.agenda ≠ [] → e.tags ≠ [] → (∀ x ∈ e.agenda, jsTrim x ≠ "") →
      (∀ x ∈ e.tags, jsTrim x ≠ "") → jsDateParse e.date = none →
      eventPreSave e = .error (.invalidFormat "date")) ∧
    (scalarsOk e → e.agenda ≠ [] → e.tags ≠ [] → (∀ x ∈ e.agenda, jsTrim x ≠ "") →
      (∀ x ∈ e.tags, jsTrim x ≠ "") → ∀ ms, jsDateParse e.date = some ms →
      specTimeAccept e.time = false →
      eventPreSave e = .error (.invalidFormat "time")) ∧
    eventPreSave { okEvent with agenda := [] } = .error (.missingField "agenda") ∧
    eventPreSave { okEvent with agenda := ["  ", "Keynote"] } =
      .error (.emptyListItem "agenda") ∧
    eventPreSave { okEvent with agenda := ["  "], tags := [] } =
      .error (.missingField "tags") := by
  refine ⟨?_, ?_, ?_, ?_, ?_, ?_, ?_, ?_, ?_,
    eventPreSave_agenda_empty e, eventPreSave_tags_empty e,
    eventPreSave_agenda_item_blank e, eventPreSave_tags_item_blank e,
    eventPreSave_date_invalid e,
    (fun hs ha ht hall htall ms hd htm => eventPreSave_time_invalid e hs ha ht hall htall
      ms hd htm),
    rfl, rfl, rfl⟩
  · intro h1
    unfold eventPreSave
    rw [if_pos h1]
  · intro h1 h2
    unfold eventPreSave
    rw [if_neg h1, if_pos h2]
  · intro h1 h2 h3
    unfold eventPreSave
    rw [if_neg h1, if_neg h2, if_pos h3]
  · intro h1 h2 h3 h4
    unfold eventPreSave
    rw [if_neg h1, if_neg h2, if_neg h3, if_pos h4]
  · intro h1 h2 h3 h4 h5
    unfold eventPreSave
    rw [if_neg h1, if_neg h2, if_neg h3, if_neg h4, if_pos h5]
  · intro h1 h2 h3 h4 h5 h6
    unfold eventPreSave
    rw [if_neg h1, if_neg h2, if_neg h3, if_neg h4, if_neg h5, if_pos h6]
  · intro h1 h2 h3 h4 h5 h6 h7
    unfold eventPreSave
    rw [if_neg h1, if_neg h2, if_neg h3, if_neg h4, if_neg h5, if_neg h6, if_pos h7]
  · intro h1 h2 h3 h4 h5 h6 h7 h8
    unfold eventPreSave
    rw [if_neg h1, if_neg h2, if_neg h3, if_neg h4, if_neg h5, if_neg h6, if_neg h7,
      if_pos h8]
  · intro h1 h2 h3 h4 h5 h6 h7 h8 h9
    unfold eventPreSave
    rw [if_neg h1, if_neg h2, if_neg h3, if_neg h4, if_neg h5, if_neg h6, if_neg h7,
      if_neg h8, if_pos h9]

/-- Witness for C2: the agenda-emptiness conjunct at a concrete record. -/
theorem c2_validation_order_witness :
    eventPreSave { okEvent with agenda := [] } = .error (.missingField "agenda") :=
  (c2_validation_order { okEvent with agenda := [] }).2.2.2.2.2.2.2.2.2.1
    (by refine ⟨?_, ?_, ?_, ?_, ?_, ?_, ?_, ?_, ?_⟩ <;> decide) rfl

/-- C6: the Event-existence lookup of the Booking pre-save hook is
performed exactly when the record is new or `eventId` was modified (for
attempts that pass the email checks); when performed with no matching
Event the save is rejected with `DanglingReference`; and on updates that do
not touch `eventId` the lookup is skipped and the outcome is independent
of the store — deleting the referenced Event never re-triggers the
check. -/
theorem c6_booking_reference (store : List Nat) (b : BookingInput) :
    ((jsTrim b.email ≠ "" ∧ isValidEmail b.email = true) →
      ((bookingPreSaveT store b).2 = true ↔ (b.isNew || b.eventIdModified) = true)) ∧
    ((b.isNew || b.eventIdModified) = false →
      (bookingPreSaveT store b).2 = false ∧
      ∀ store' : List Nat, bookingPreSave store b = bookingPreSave store' b) ∧
    (jsTrim b.email ≠ "" → isValidEmail b.email = true →
      (b.isNew || b.eventIdModified) = true → store.contains b.eventId = false →
      bookingPreSave store b = .error .danglingReference) := by
  unfold bookingPreSave bookingPreSaveT
  refine ⟨?_, ?_, ?_⟩
  · rintro ⟨h1, h2⟩
    rw [if_neg h1, if_neg (by rw [h2]; exact (by decide : ¬(true = false)))]
    by_cases h3 : (b.isNew || b.eventIdModified) = true
    · rw [if_pos h3]
      simp [h3]
    · rw [if_neg h3]
      simp only [Bool.not_eq_true] at h3
      simp [h3]
  · intro h3
    by_cases h1 : jsTrim b.email = ""
    · rw [if_pos h1]
      exact ⟨rfl, fun store' => by rw [if_pos h1]⟩
    rw [if_neg h1]
    by_cases h2 : isValidEmail b.email = false
    · rw [if_pos h2]
      exact ⟨rfl, fun store' => by rw [if_neg h1, if_pos h2]⟩
    rw [if_neg h2, if_neg (by rw [h3]; exact (by decide : ¬(false = true)))]
    exact ⟨rfl, fun store' => by
      rw [if_neg h1, if_neg h2, if_neg (by rw [h3]; exact (by decide : ¬(false = true)))]⟩
  · intro h1 h2 h3 h4
    rw [if_neg h1, if_neg (by rw [h2]; exact (by decide : ¬(true = false))), if_pos h3,
      if_neg (by rw [h4]; exact (by decide : ¬(false = true)))]

/-- Witness for C6: an untouched-reference update ignores the store, and a
new Booking against an empty store dangles. -/
theorem c6_booking_reference_witness :
    (bookingPreSaveT [] { eventId := 7, email := "a@b.c", isNew := false, eventIdModified := false }).2 = false ∧
    bookingPreSave [] { eventId := 7, email := "a@b.c", isNew := true, eventIdModified := false } = .error .danglingReference :=
  ⟨((c6_booking_reference [] { eventId := 7, email := "a@b.c", isNew := false, eventIdModified := false }).2.1 rfl).1,
    (c6_booking_reference [] { eventId := 7, email := "a@b.c", isNew := true, eventIdModified := false }).2.2
      (by decide) rfl rfl rfl⟩

/-- C7: a successful save that does not change the title (and is not a
creation) leaves the slug exactly equal to its stored value whatever the
other fields are; a save of a new record or one whose title changed
recomputes the slug from the (unchanged-by-the-hook) title via the Slug
Generator. -/
theorem c7_slug_stability (e r : EventInput) (h : eventPreSave e = .ok r) :
    (e.isNew = false → e.titleModified = false → r.slug = e.slug) ∧
    ((e.isNew || e.titleModified) = true →
      r.slug = slugifyTitle e.title ∧ r.title = e.title) := by
  obtain ⟨-, -, -, -, -, -, -, -, -, -, -, -, -, date', time', -, -, hr⟩ :=
    eventPreSave_ok e r h
  subst hr
  constructor
  · intro h1 h2
    show (if e.isNew || e.titleModified then slugifyTitle e.title else e.slug) = e.slug
    rw [h1, h2]
    rfl
  · intro h1
    refine ⟨?_, rfl⟩
    show (if e.isNew || e.titleModified then slugifyTitle e.title else e.slug) =
      slugifyTitle e.title
    rw [if_pos h1]

/-- Witness for C7: an update of an existing record that does not touch the
title keeps the stored slug. -/
theorem c7_slug_stability_witness :
    eventPreSave { okEvent with isNew := false, slug := "existing" } =
      .ok { okEvent with isNew := false, slug := "existing", agenda := ["Keynote"], tags := ["ai", "rust"] } ∧
    ({ okEvent with isNew := false, slug := "existing", agenda := ["Keynote"], tags := ["ai", "rust"] } : EventInput).slug =
      ({ okEvent with isNew := false, slug := "existing" } : EventInput).slug :=
  ⟨rfl, (c7_slug_stability { okEvent with isNew := false, slug := "existing" }
    { okEvent with isNew := false, slug := "existing", agenda := ["Keynote"], tags := ["ai", "rust"] } rfl).1 rfl rfl⟩

/-- C8 (counterexample): the claim says every accepted Event stores its
date in canonical `YYYY-MM-DD` form.  A fully valid Event whose date input
is the conformant `"0999-01-01"` is accepted, and the stored date is the
nine-character `"999-01-01"` with an unpadded three-digit year. -/
theorem c8_invariants_counterexample :
    eventPreSave { okEvent with date := "0999-01-01" } =
      .ok { okEvent with date := "999-01-01", slug := "tech-meetup-2024", agenda := ["Keynote"], tags := ["ai", "rust"] } ∧
    ("999-01-01" : String).length ≠ 10 :=
  ⟨rfl, by decide⟩

/-- C8 (amended): every Event record accepted by validation satisfies, as
handed to the store: the nine scalar text fields are non-empty after
trimming; agenda and tags are non-empty and their elements are trimmed and
non-empty; every tag is lower-case; the date is the rendering of a valid
UTC calendar date with two-digit zero-padded month and day (and unpadded
year, four digits exactly when the year is 1000–9999); the time is
canonical five-character `HH:MM`. -/
theorem c8_stored_invariants (e r : EventInput) (h : eventPreSave e = .ok r) :
    jsTrim r.title ≠ "" ∧ jsTrim r.description ≠ "" ∧ jsTrim r.overview ≠ "" ∧
    jsTrim r.image ≠ "" ∧ jsTrim r.venue ≠ "" ∧ jsTrim r.location ≠ "" ∧
    jsTrim r.mode ≠ "" ∧ jsTrim r.audience ≠ "" ∧ jsTrim r.organizer ≠ "" ∧
    r.agenda ≠ [] ∧ (∀ x ∈ r.agenda, jsTrim x = x ∧ x ≠ "") ∧
    r.tags ≠ [] ∧ (∀ x ∈ r.tags, jsTrim x = x ∧ x ≠ "" ∧ jsToLower x = x) ∧
    (∃ y m d, 1 ≤ m ∧ m ≤ 12 ∧ 1 ≤ d ∧ d ≤ daysInMonth (isLeap y) m ∧
      r.date = renderDate y m d ∧ (pad2 m).length = 2 ∧ (pad2 d).length = 2) ∧
    (∃ a b c d, r.time = ⟨[a, b, ':', c, d]⟩ ∧ hourOk a b = true ∧ minOk c d = true) := by
  obtain ⟨h1, h2, h3, h4, h5, h6, h7, h8, h9, h10, h11, h12, h13, date', time', hd, ht, hr⟩ :=
    eventPreSave_ok e r h
  subst hr
  refine ⟨h1, h2, h3, h4, h5, h6, h7, h8, h9, ?_, ?_, ?_, ?_, ?_, ?_⟩
  · show e.agenda.map jsTrim ≠ []
    simpa using h10
  · show ∀ x ∈ e.agenda.map jsTrim, jsTrim x = x ∧ x ≠ ""
    intro x hx
    obtain ⟨x0, hx0, hxeq⟩ := List.mem_map.mp hx
    subst hxeq
    exact ⟨jsTrim_idem x0, h12 x0 hx0⟩
  · show e.tags.map (fun t => jsToLower (jsTrim t)) ≠ []
    simpa using h11
  · show ∀ x ∈ e.tags.map (fun t => jsToLower (jsTrim t)),
      jsTrim x = x ∧ x ≠ "" ∧ jsToLower x = x
    intro x hx
    obtain ⟨x0, hx0, hxeq⟩ := List.mem_map.mp hx
    subst hxeq
    exact ⟨jsTrim_toLower (jsTrim x0) (jsTrim_idem x0),
      jsToLower_ne_empty (h13 x0 hx0), jsToLower_idem (jsTrim x0)⟩
  · show ∃ y m d, 1 ≤ m ∧ m ≤ 12 ∧ 1 ≤ d ∧ d ≤ daysInMonth (isLeap y) m ∧
      date' = renderDate y m d ∧ (pad2 m).length = 2 ∧ (pad2 d).length = 2
    obtain ⟨y, m, d, v1, v2, v3, v4, hrd⟩ := normalizeDate_ok_shape e.date date' hd
    have hd31 : d ≤ 31 := le_trans v4 (daysInMonth_le_31 _ _)
    exact ⟨y, m, d, v1, v2, v3, v4, hrd, pad2_length (by omega), pad2_length (by omega)⟩
  · show ∃ a b c d, time' = (⟨[a, b, ':', c, d]⟩ : String) ∧
      hourOk a b = true ∧ minOk c d = true
    obtain ⟨a, b, c, d, hr', hH, hM, -⟩ := normalizeTime_ok_shape e.time time' ht
    exact ⟨a, b, c, d, hr', hH, hM⟩

/-- Witness for C8 at the concrete valid Event and its stored tag `"ai"`. -/
theorem c8_stored_invariants_witness :
    jsTrim "ai" = "ai" ∧ ("ai" : String) ≠ "" ∧ jsToLower "ai" = "ai" :=
  (c8_stored_invariants okEvent
    { okEvent with slug := "tech-meetup-2024", agenda := ["Keynote"], tags := ["ai", "rust"] }
    rfl).2.2.2.2.2.2.2.2.2.2.2.2.1 "ai" (by decide)
